import Mathlib

/-!
Verification development for the Ekovision tracking core.

The definitions below are a shallow embedding of the Python sources:
`src/tracking/bytetrack.py`, `src/tracking/bottle_tracker.py`,
`src/tracking/classification_cache.py`, `src/tracking/trigger_zone.py`,
`src/tracking/pipeline.py` and `src/temporal_smoother.py`.
Floating point values are modelled by rationals; numpy arrays by lists;
Python dicts by insertion-ordered association lists.
-/

set_option maxHeartbeats 1000000

/- Batteries marks the arithmetic on `Rat` `@[irreducible]`, which blocks
`decide`/`rfl` evaluation of the embedded functions on concrete inputs;
restore the default reducibility inside this development. -/
attribute [local semireducible] Rat.add Rat.sub Rat.mul Rat.inv

namespace Ekovision

/-! ### Geometry utilities and the greedy matcher (bytetrack.py) -/

/-- Entry `c[i][j]` of a cost matrix (2-D numpy array); 0 outside bounds. -/
def costAt (c : List (List ℚ)) (i j : Nat) : ℚ := (c.getD i []).getD j 0

/-- Folding step selecting the first minimal triple. -/
def pickMinStep (acc : Option (Nat × Nat × ℚ)) (x : Nat × Nat × ℚ) :
    Option (Nat × Nat × ℚ) :=
  match acc with
  | none => some x
  | some b => if x.2.2 < b.2.2 then some x else some b

/-- First triple attaining the minimal third component, scanning left to
right (models `np.argmin`, which returns the first flat minimum). -/
def pickMin (l : List (Nat × Nat × ℚ)) : Option (Nat × Nat × ℚ) :=
  l.foldl pickMinStep none

/-- Position `(i, j)` (row-major first occurrence) and value of the minimum
of `f` over `{0..m-1} × {0..n-1}`: models
`np.unravel_index(cost_copy.argmin(), cost_copy.shape)` plus `cost_copy.min()`. -/
def argminPos (f : Nat → Nat → ℚ) (m n : Nat) : Option (Nat × Nat × ℚ) :=
  pickMin ((List.range m).flatMap (fun i => (List.range n).map (fun j => (i, j, f i j))))

/-- While-loop of `linear_assignment` (bytetrack.py).  The numpy submatrix
`cost_copy` is represented by the lists `ua`/`ub` of remaining original
row/column indices: `cost_copy[i][j] = cost_matrix[ua[i]][ub[j]]`, which is
exactly the relation that `np.delete` of matched rows/columns maintains;
`unmatched_a.pop(i)` / `unmatched_b.pop(j)` are the `eraseIdx` calls.  The
`fuel` argument only bounds the iteration count: the loop deletes one row
per accepted match, so any `fuel ≥ ua.length` (the caller passes exactly
`ua.length`) makes the fuel-0 case unreachable with a nonempty `ua`. -/
def greedyLoop (c : List (List ℚ)) (thresh : ℚ) :
    Nat → List Nat → List Nat → List (Nat × Nat) →
    List (Nat × Nat) × List Nat × List Nat
  | 0, ua, ub, ms => (ms, ua, ub)
  | fuel + 1, ua, ub, ms =>
    if ua.length = 0 ∨ ub.length = 0 then (ms, ua, ub)
    else
      match argminPos (fun i j => costAt c (ua.getD i 0) (ub.getD j 0))
          ua.length ub.length with
      | none => (ms, ua, ub)
      | some (i, j, v) =>
        if thresh < v then (ms, ua, ub)
        else greedyLoop c thresh fuel (ua.eraseIdx i) (ub.eraseIdx j)
          (ms ++ [(ua.getD i 0, ub.getD j 0)])

/-- `linear_assignment(cost_matrix, thresh)` from bytetrack.py: simple greedy
matching.  Returns `(matches, unmatched_a, unmatched_b)`. -/
def linear_assignment (c : List (List ℚ)) (thresh : ℚ) :
    List (Nat × Nat) × List Nat × List Nat :=
  if c.length = 0 ∨ (c.headD []).length = 0 then
    ([], List.range c.length, List.range (c.headD []).length)
  else
    greedyLoop c thresh c.length (List.range c.length)
      (List.range (c.headD []).length) []

/-! ### IoU and the ByteTrack tracker (bytetrack.py) -/

/-- Axis-aligned box `[x1, y1, x2, y2]`. -/
structure Box where
  x1 : ℚ
  y1 : ℚ
  x2 : ℚ
  y2 : ℚ
deriving DecidableEq, Repr

/-- IoU of two boxes: the scalar computation performed elementwise by
`iou_batch` (including the `np.maximum(union, 1e-6)` guard). -/
def iou (a b : Box) : ℚ :=
  let ix1 := max a.x1 b.x1
  let iy1 := max a.y1 b.y1
  let ix2 := min a.x2 b.x2
  let iy2 := min a.y2 b.y2
  let inter := max 0 (ix2 - ix1) * max 0 (iy2 - iy1)
  let area1 := (a.x2 - a.x1) * (a.y2 - a.y1)
  let area2 := (b.x2 - b.x1) * (b.y2 - b.y1)
  inter / max (area1 + area2 - inter) (1 / 1000000)

/-- One detection row `[x1, y1, x2, y2, score]`. -/
structure Det where
  box : Box
  score : ℚ
deriving DecidableEq, Repr

/-- `STrack`: single object track.  `uid` models Python object identity
(each `STrack(...)` construction draws a fresh uid; the identity-based
`t not in removed_stracks` membership test compares uids). -/
structure STrack where
  uid : Nat
  tlbr : Box
  score : ℚ
  track_id : Option Nat
  is_activated : Bool
  tracklet_len : Nat
  frame_id : Nat
  start_frame : Nat
deriving DecidableEq, Repr

/-- `STrack.__init__(tlbr, score)`. -/
def STrack.init (uid : Nat) (tlbr : Box) (score : ℚ) : STrack :=
  { uid := uid, tlbr := tlbr, score := score, track_id := none,
    is_activated := false, tracklet_len := 0, frame_id := 0, start_frame := 0 }

/-- `STrack.activate(frame_id)` together with the increment performed by
`STrack.next_id()`.  `STrack._count` is a class attribute shared by every
tracker instance in the process; it is threaded explicitly as `count`. -/
def STrack.activate (t : STrack) (frame_id count : Nat) : STrack × Nat :=
  ({ t with track_id := some (count + 1), tracklet_len := 0,
            frame_id := frame_id, start_frame := frame_id,
            is_activated := true }, count + 1)

/-- `STrack.update(new_track, frame_id)`. -/
def STrack.update (t new_track : STrack) (frame_id : Nat) : STrack :=
  { t with tlbr := new_track.tlbr, score := new_track.score,
           tracklet_len := t.tracklet_len + 1, frame_id := frame_id,
           is_activated := true }

/-- `STrack.mark_lost()`. -/
def STrack.mark_lost (t : STrack) : STrack := { t with is_activated := false }

/-- `STrack.mark_removed()`. -/
def STrack.mark_removed (t : STrack) : STrack := { t with is_activated := false }

/-- Placeholder used with `List.getD`; match indices produced by
`linear_assignment` are always in range, so it is never actually read
(its `track_id = none` keeps every identity lemma honest regardless). -/
def dummySTrack : STrack := STrack.init 0 ⟨0, 0, 0, 0⟩ 0

/-- Fresh `STrack` objects built from a detection list (the
`[STrack(det[:4], det[4]) for det in dets]` comprehensions), with
consecutive fresh uids starting at `uid0`. -/
def mkSTracks (uid0 : Nat) (dets : List Det) : List STrack :=
  ((List.range dets.length).zip dets).map
    (fun p => STrack.init (uid0 + p.1) p.2.box p.2.score)

/-- `BYTETracker` mutable state (`frame_rate` is unused by the source). -/
structure BYTETracker where
  track_thresh : ℚ
  track_buffer : Nat
  match_thresh : ℚ
  tracked_stracks : List STrack
  lost_stracks : List STrack
  removed_stracks : List STrack
  frame_id : Nat
  uidCounter : Nat
deriving DecidableEq, Repr

/-- `BYTETracker.__init__`. -/
def BYTETracker.init (track_thresh : ℚ) (track_buffer : Nat)
    (match_thresh : ℚ) : BYTETracker :=
  { track_thresh := track_thresh, track_buffer := track_buffer,
    match_thresh := match_thresh, tracked_stracks := [], lost_stracks := [],
    removed_stracks := [], frame_id := 0, uidCounter := 0 }

/-- `BYTETracker._match(tracks, detections)`: IoU cost matrix plus greedy
assignment at threshold `1 - match_thresh`. -/
def BYTETracker.matchLists (match_thresh : ℚ) (tracks detections : List STrack) :
    List (Nat × Nat) × List Nat × List Nat :=
  if tracks.length = 0 ∨ detections.length = 0 then
    ([], List.range tracks.length, List.range detections.length)
  else
    linear_assignment
      (tracks.map (fun t => detections.map (fun d => 1 - iou t.tlbr d.tlbr)))
      (1 - match_thresh)

/-- Body of the "Initialize new tracks" loop of `BYTETracker.update`
(`if track.score < self.track_thresh: continue` and then activation). -/
def initStep (track_thresh : ℚ) (frame_id : Nat)
    (acc : List STrack × Nat) (t : STrack) : List STrack × Nat :=
  if t.score < track_thresh then acc
  else
    let a := STrack.activate t frame_id acc.2
    (acc.1 ++ [a.1], a.2)

/-- The "Initialize new tracks" loop of `BYTETracker.update`: every
unmatched leftover detection with score not below `track_thresh` is
activated with the next global identity. -/
def initNewTracks (cands : List STrack) (track_thresh : ℚ) (frame_id : Nat)
    (count : Nat) : List STrack × Nat :=
  cands.foldl (initStep track_thresh frame_id) ([], count)

/-- `BYTETracker.update(detections)`.  Threads the process-global
`STrack._count` counter as `count`.  Returns
`(active tracks, new state, new counter)`. -/
def BYTETracker.update (s : BYTETracker) (detections : List Det)
    (count : Nat) : List STrack × BYTETracker × Nat :=
  let frame_id := s.frame_id + 1
  if detections.length = 0 then
    -- No detections, mark all tracks as lost
    ([], { s with
           tracked_stracks := [],
           lost_stracks := s.tracked_stracks.map STrack.mark_lost,
           frame_id := frame_id }, count)
  else
    -- Separate high and low confidence detections
    let dets := detections.filter (fun d => s.track_thresh < d.score)
    let dets_low := detections.filter
      (fun d => (1 / 10 : ℚ) < d.score ∧ ¬ s.track_thresh < d.score)
    let detections_high := mkSTracks s.uidCounter dets
    let detections_low := mkSTracks (s.uidCounter + dets.length) dets_low
    let uidC := s.uidCounter + dets.length + dets_low.length
    -- Match with tracked tracks: partition into unconfirmed / confirmed
    let unconfirmed := s.tracked_stracks.filter (fun t => !t.is_activated)
    let strack_pool := s.tracked_stracks.filter (fun t => t.is_activated)
    -- First association with high score detections
    let mA := BYTETracker.matchLists s.match_thresh strack_pool detections_high
    let activatedA := mA.1.map (fun p =>
      STrack.update (strack_pool.getD p.1 dummySTrack)
        (detections_high.getD p.2 dummySTrack) frame_id)
    -- Second association with low score detections
    let r_tracked_stracks := mA.2.1.map
      (fun i => strack_pool.getD i dummySTrack)
    let mB := BYTETracker.matchLists s.match_thresh r_tracked_stracks
      detections_low
    let activatedB := mB.1.map (fun p =>
      STrack.update (r_tracked_stracks.getD p.1 dummySTrack)
        (detections_low.getD p.2 dummySTrack) frame_id)
    -- Mark unmatched tracks as lost
    let lost_local := mB.2.1.map
      (fun i => (r_tracked_stracks.getD i dummySTrack).mark_lost)
    -- Deal with unconfirmed tracks, on detections left over from stage A
    let detections_left := mA.2.2.map
      (fun i => detections_high.getD i dummySTrack)
    let mC := BYTETracker.matchLists s.match_thresh unconfirmed detections_left
    let activatedC := mC.1.map (fun p =>
      STrack.update (unconfirmed.getD p.1 dummySTrack)
        (detections_left.getD p.2 dummySTrack) frame_id)
    let removed_unconf := mC.2.1.map
      (fun i => (unconfirmed.getD i dummySTrack).mark_removed)
    -- Initialize new tracks
    let nt := initNewTracks
      (mC.2.2.map (fun i => detections_left.getD i dummySTrack))
      s.track_thresh frame_id count
    -- Update lost tracks past the buffer
    let removed_timeout := (s.lost_stracks.filter
      (fun t => (s.track_buffer : ℤ) < (frame_id : ℤ) - (t.frame_id : ℤ))).map
      STrack.mark_removed
    let removed_local := removed_unconf ++ removed_timeout
    let activated_stracks := activatedA ++ activatedB ++ activatedC ++ nt.1
    -- Merge lists
    let tracked' := activated_stracks.filter (fun t => t.is_activated)
    let lost' := lost_local.filter
      (fun t => !removed_local.any (fun r => r.uid = t.uid))
    (tracked',
     { s with
       tracked_stracks := tracked',
       lost_stracks := lost',
       removed_stracks := s.removed_stracks ++ removed_local,
       frame_id := frame_id,
       uidCounter := uidC }, nt.2)

/-- `BYTETracker.reset()`: clears the lists and the frame counter, and
(via `STrack.reset_id()`) zeroes the process-global identity counter —
whatever its current value, and whichever tracker instance calls it.  The
second component is the counter value after the call. -/
def BYTETracker.reset (s : BYTETracker) : BYTETracker × Nat :=
  ({ s with tracked_stracks := [], lost_stracks := [],
            removed_stracks := [], frame_id := 0 }, 0)

/-- Tracker states (with the process-global identity counter) reachable
through the public operations: construction at an arbitrary point of the
process (any current counter value), `update`, and `reset` (which zeroes
the shared counter via `STrack.reset_id()`). -/
inductive BYTEReachable : BYTETracker → Nat → Prop
  | init (tt : ℚ) (tb : Nat) (mt : ℚ) (c : Nat) :
      BYTEReachable (BYTETracker.init tt tb mt) c
  | step (s : BYTETracker) (c : Nat) (dets : List Det) :
      BYTEReachable s c →
      BYTEReachable (BYTETracker.update s dets c).2.1
        (BYTETracker.update s dets c).2.2
  | reset (s : BYTETracker) (c : Nat) :
      BYTEReachable s c →
      BYTEReachable (BYTETracker.reset s).1 (BYTETracker.reset s).2

/-- All track identities stored anywhere in a tracker state. -/
def idsOf (s : BYTETracker) : List Nat :=
  (s.tracked_stracks ++ s.lost_stracks ++ s.removed_stracks).filterMap
    (fun t => t.track_id)

/-- Every identity stored in `s` was drawn from a counter value ≤ `c`. -/
def CounterInv (s : BYTETracker) (c : Nat) : Prop :=
  ∀ i ∈ idsOf s, i ≤ c

/-- The identities (those above the incoming counter, i.e. the freshly
assigned ones) carried by the tracks each `update` call returns, over a
whole run of updates with no intervening reset. -/
def runEmitted : BYTETracker → Nat → List (List Det) → List Nat
  | _, _, [] => []
  | s, c, ds :: rest =>
    ((BYTETracker.update s ds c).1.filterMap (fun t => t.track_id)).filter
      (fun i => c < i) ++
    runEmitted (BYTETracker.update s ds c).2.1
      (BYTETracker.update s ds c).2.2 rest

/-- Final value of the shared identity counter after a run of updates. -/
def runCounter : BYTETracker → Nat → List (List Det) → Nat
  | _, c, [] => c
  | s, c, ds :: rest =>
    runCounter (BYTETracker.update s ds c).2.1
      (BYTETracker.update s ds c).2.2 rest

/-- Any identity carried by `t` was drawn at or below counter value `c`. -/
def IdLe (c : Nat) (t : STrack) : Prop :=
  ∀ i : Nat, t.track_id = some i → i ≤ c

/-! ### Bottle lifecycle tracker (bottle_tracker.py) -/

/-- `TrackingState` enum. -/
inductive TrackingState where
  | NEW
  | TRACKED
  | CLASSIFIED
  | FAILED
deriving DecidableEq, Repr

/-- `BottleTrack` dataclass.  `track_id` is stored as the raw
`STrack.track_id` (an `Option` since a fresh `STrack` has `track_id =
None`); the Python dict key always equals this field. -/
structure BottleTrack where
  track_id : Option Nat
  bbox : Box
  confidence : ℚ
  state : TrackingState
  frames_since_update : Nat
  classification_results : Option (List (String × String))
  classification_attempts : Nat
deriving DecidableEq, Repr

/-- `BottleTrack(track_id=..., bbox=..., confidence=..., state=NEW,
frames_since_update=0)` with the dataclass defaults. -/
def BottleTrack.mkNew (track_id : Option Nat) (bbox : Box)
    (confidence : ℚ) : BottleTrack :=
  { track_id := track_id, bbox := bbox, confidence := confidence,
    state := TrackingState.NEW, frames_since_update := 0,
    classification_results := none, classification_attempts := 0 }

/-- `BottleTracker` state; `self.tracks` is an insertion-ordered list
modelling the Python dict keyed by `track_id`. -/
structure BottleTracker where
  max_age : Nat
  min_hits : Nat
  iou_threshold : ℚ
  max_classification_attempts : Nat
  max_tracks : Nat
  track_thresh : ℚ
  byte_tracker : BYTETracker
  tracks : List BottleTrack
  frame_count : Nat
deriving DecidableEq, Repr

/-- `BottleTracker.__init__`. -/
def BottleTracker.init (max_age min_hits : Nat) (iou_threshold : ℚ)
    (max_classification_attempts max_tracks : Nat) (track_thresh : ℚ) :
    BottleTracker :=
  { max_age := max_age, min_hits := min_hits,
    iou_threshold := iou_threshold,
    max_classification_attempts := max_classification_attempts,
    max_tracks := max_tracks, track_thresh := track_thresh,
    byte_tracker := BYTETracker.init track_thresh max_age iou_threshold,
    tracks := [], frame_count := 0 }

/-- One iteration of the "Update or create BottleTrack objects" loop of
`BottleTracker.update`. -/
def processStrack (tracks : List BottleTrack) (st : STrack) :
    List BottleTrack :=
  if tracks.any (fun t => t.track_id = st.track_id) then
    tracks.map (fun t =>
      if t.track_id = st.track_id then
        { t with bbox := st.tlbr, confidence := st.score,
                 frames_since_update := 0,
                 state := if t.state = TrackingState.NEW
                   then TrackingState.TRACKED else t.state }
      else t)
  else tracks ++ [BottleTrack.mkNew st.track_id st.tlbr st.score]

/-- The `frames_since_update` aging applied to tracks absent from the
current frame. -/
def ageStep (currentIds : List (Option Nat)) (t : BottleTrack) :
    BottleTrack :=
  if currentIds.contains t.track_id then t
  else { t with frames_since_update := t.frames_since_update + 1 }

/-- `BottleTracker._enforce_track_limit()`: keep the `max_tracks` tracks of
highest confidence (`sorted(..., reverse=True)` is a stable descending
sort; `dict(sorted_tracks[:max_tracks])` keeps that order). -/
def enforceTrackLimit (max_tracks : Nat) (tracks : List BottleTrack) :
    List BottleTrack :=
  (tracks.mergeSort (fun a b => b.confidence ≤ a.confidence)).take max_tracks

/-- `BottleTracker.update(detections)` (threading the shared identity
counter through the inner ByteTrack update). -/
def BottleTracker.update (bt : BottleTracker) (detections : List Det)
    (count : Nat) : List BottleTrack × BottleTracker × Nat :=
  let r := BYTETracker.update bt.byte_tracker detections count
  let currentIds := r.1.map (fun st => st.track_id)
  let tracks1 := r.1.foldl processStrack bt.tracks
  let tracks2 := (tracks1.map (ageStep currentIds)).filter
    (fun t => currentIds.contains t.track_id
      || t.frames_since_update ≤ bt.max_age)
  let tracks3 := if bt.max_tracks < tracks2.length
    then enforceTrackLimit bt.max_tracks tracks2 else tracks2
  (tracks3.filter (fun t => t.frames_since_update = 0),
   { bt with byte_tracker := r.2.1, tracks := tracks3,
             frame_count := bt.frame_count + 1 }, r.2.2)

/-- `BottleTracker.get_track_by_id(track_id)`. -/
def BottleTracker.get_track_by_id (bt : BottleTracker) (tid : Nat) :
    Option BottleTrack :=
  bt.tracks.find? (fun t => t.track_id = some tid)

/-- `BottleTracker.mark_classified(track_id, results)`; first component is
the returned Bool. -/
def BottleTracker.mark_classified (bt : BottleTracker) (tid : Nat)
    (results : List (String × String)) : Bool × BottleTracker :=
  match bt.get_track_by_id tid with
  | none => (false, bt)
  | some _ =>
    (true, { bt with tracks := bt.tracks.map (fun t =>
      if t.track_id = some tid then
        { t with state := TrackingState.CLASSIFIED,
                 classification_results := some results }
      else t) })

/-- `BottleTracker.mark_failed(track_id)`. -/
def BottleTracker.mark_failed (bt : BottleTracker) (tid : Nat) :
    Bool × BottleTracker :=
  match bt.get_track_by_id tid with
  | none => (false, bt)
  | some _ =>
    (true, { bt with tracks := bt.tracks.map (fun t =>
      if t.track_id = some tid then { t with state := TrackingState.FAILED }
      else t) })

/-- `BottleTracker.increment_classification_attempts(track_id)`: adds one
to the counter and auto-marks FAILED when it reaches the configured
maximum. -/
def BottleTracker.increment_classification_attempts (bt : BottleTracker)
    (tid : Nat) : Bool × BottleTracker :=
  match bt.get_track_by_id tid with
  | none => (false, bt)
  | some _ =>
    (true, { bt with tracks := bt.tracks.map (fun t =>
      if t.track_id = some tid then
        let t1 := { t with
          classification_attempts := t.classification_attempts + 1 }
        if bt.max_classification_attempts ≤ t1.classification_attempts
          then { t1 with state := TrackingState.FAILED } else t1
      else t) })

/-- `BottleTracker.should_classify(track_id)`: true iff the track exists,
its state is NEW or TRACKED, and its attempt counter is below the
configured maximum. -/
def BottleTracker.should_classify (bt : BottleTracker) (tid : Nat) : Bool :=
  match bt.get_track_by_id tid with
  | none => false
  | some track =>
    (track.state = TrackingState.NEW ∨ track.state = TrackingState.TRACKED)
    && track.classification_attempts < bt.max_classification_attempts

/-- `BottleTracker.remove_track(track_id)`. -/
def BottleTracker.remove_track (bt : BottleTracker) (tid : Nat) :
    Bool × BottleTracker :=
  if bt.tracks.any (fun t => t.track_id = some tid) then
    (true, { bt with
      tracks := bt.tracks.filter (fun t => ¬ t.track_id = some tid) })
  else (false, bt)

/-- `BottleTracker.reset()` (clears the dict, resets the inner ByteTrack
tracker — zeroing the shared identity counter — and the frame count). -/
def BottleTracker.reset (bt : BottleTracker) : BottleTracker × Nat :=
  ({ bt with tracks := [],
             byte_tracker := (BYTETracker.reset bt.byte_tracker).1,
             frame_count := 0 },
   (BYTETracker.reset bt.byte_tracker).2)

/-- Bottle-tracker states reachable through the public operations. -/
inductive BottleReachable : BottleTracker → Nat → Prop
  | init (ma mh : Nat) (it : ℚ) (mca mt : Nat) (tt : ℚ) (c : Nat) :
      BottleReachable (BottleTracker.init ma mh it mca mt tt) c
  | update (bt : BottleTracker) (c : Nat) (dets : List Det) :
      BottleReachable bt c →
      BottleReachable (BottleTracker.update bt dets c).2.1
        (BottleTracker.update bt dets c).2.2
  | mark_classified (bt : BottleTracker) (c tid : Nat)
      (res : List (String × String)) :
      BottleReachable bt c →
      BottleReachable (BottleTracker.mark_classified bt tid res).2 c
  | mark_failed (bt : BottleTracker) (c tid : Nat) :
      BottleReachable bt c →
      BottleReachable (BottleTracker.mark_failed bt tid).2 c
  | increment (bt : BottleTracker) (c tid : Nat) :
      BottleReachable bt c →
      BottleReachable
        (BottleTracker.increment_classification_attempts bt tid).2 c
  | remove (bt : BottleTracker) (c tid : Nat) :
      BottleReachable bt c →
      BottleReachable (BottleTracker.remove_track bt tid).2 c
  | reset (bt : BottleTracker) (c : Nat) :
      BottleReachable bt c →
      BottleReachable (BottleTracker.reset bt).1 (BottleTracker.reset bt).2

/-- The (amended) attempt-cap invariant for one tracked object: once the
attempt counter has reached the configured maximum the object can no
longer be in a classify-eligible state. -/
def CapOk (m : Nat) (t : BottleTrack) : Prop :=
  m ≤ t.classification_attempts →
    t.state = TrackingState.FAILED ∨ t.state = TrackingState.CLASSIFIED

/-- A state produced by public operations only: one track, attempts
driven to the maximum (2), then `mark_classified` called on it. -/
def exampleCapState : BottleTracker :=
  (BottleTracker.mark_classified
    (BottleTracker.increment_classification_attempts
      (BottleTracker.increment_classification_attempts
        (BottleTracker.update (BottleTracker.init 30 1 (3/10) 2 20 (1/2))
          [⟨⟨0, 0, 10, 10⟩, 9/10⟩] 0).2.1 1).2 1).2 1 []).2

/-! ### Classification cache (classification_cache.py) -/

/-- `ClassificationCache` state.  `cache` models the `OrderedDict` (front
= least recently used, back = most recently used).  The mirror field
`_stats.size` always equals `len(self._cache)` and is not duplicated
here; `hits`/`misses` are the `CacheStats` counters. -/
structure ClassificationCache where
  max_size : Nat
  cache : List (Nat × List (String × String))
  hits : Nat
  misses : Nat
deriving DecidableEq, Repr

/-- `ClassificationCache.__init__(max_size)`. -/
def ClassificationCache.init (max_size : Nat) : ClassificationCache :=
  { max_size := max_size, cache := [], hits := 0, misses := 0 }

/-- `get(track_id)`: on a hit, move the entry to the back (most recently
used), bump `hits` and return (a copy of) the value; on a miss bump
`misses` and return nothing. -/
def ClassificationCache.get (c : ClassificationCache) (track_id : Nat) :
    Option (List (String × String)) × ClassificationCache :=
  match c.cache.find? (fun p => p.1 = track_id) with
  | some p =>
    (some p.2,
     { c with cache := c.cache.filter (fun q => ¬ q.1 = track_id) ++ [p],
              hits := c.hits + 1 })
  | none => (none, { c with misses := c.misses + 1 })

/-- `put(track_id, results)`: replace-and-refresh when present; append
when absent, and if that exceeds capacity evict with `popitem(last=False)`
— the front entry, i.e. the least recently used one. -/
def ClassificationCache.put (c : ClassificationCache) (track_id : Nat)
    (results : List (String × String)) : ClassificationCache :=
  if c.cache.any (fun p => p.1 = track_id) then
    { c with cache := c.cache.filter (fun q => ¬ q.1 = track_id)
        ++ [(track_id, results)] }
  else
    let cache1 := c.cache ++ [(track_id, results)]
    { c with cache := if c.max_size < cache1.length
        then cache1.tail else cache1 }

/-- `remove(track_id)`. -/
def ClassificationCache.remove (c : ClassificationCache) (track_id : Nat) :
    Bool × ClassificationCache :=
  if c.cache.any (fun p => p.1 = track_id) then
    (true, { c with cache := c.cache.filter (fun q => ¬ q.1 = track_id) })
  else (false, c)

/-- `clear()`. -/
def ClassificationCache.clear (c : ClassificationCache) :
    ClassificationCache :=
  { c with cache := [] }

/-- The cache operations whose sequences the size invariant quantifies
over. -/
inductive CacheOp where
  | get (track_id : Nat)
  | put (track_id : Nat) (results : List (String × String))
  | remove (track_id : Nat)
  | clear
deriving DecidableEq, Repr

def applyCacheOp (c : ClassificationCache) : CacheOp → ClassificationCache
  | CacheOp.get k => (c.get k).2
  | CacheOp.put k v => c.put k v
  | CacheOp.remove k => (c.remove k).2
  | CacheOp.clear => c.clear

def runCacheOps (c : ClassificationCache) (ops : List CacheOp) :
    ClassificationCache :=
  ops.foldl applyCacheOp c

/-! ### Temporal smoother (temporal_smoother.py) -/

/-- Python dict lookup `pred[key]` (None-free: a missing key raises, so
the lookup is Option-valued here and the voting is monadic). -/
def dictGet (m : List (String × String)) (k : String) : Option String :=
  (m.find? (fun p => p.1 = k)).map (fun p => p.2)

/-- `Counter(values).most_common(1)[0][0]`: the value with the greatest
multiplicity; `heapq.nlargest` is stable, so ties go to the value first
encountered (= first inserted into the `Counter`). -/
def mostCommon (l : List String) : Option String :=
  match l with
  | [] => none
  | x :: _ =>
    some (l.foldl (fun b y => if l.count b < l.count y then y else b) x)

/-- `TemporalSmoother._vote(predictions)`: for every key of the first
(oldest) prediction, the most common value of that key across the
window.  A key missing from a later prediction raises a `KeyError` in the
source, modelled as `none`. -/
def vote (predictions : List (List (String × String))) :
    Option (List (String × String)) :=
  ((predictions.headD []).map (fun p => p.1)).mapM (fun key => do
    let values ← predictions.mapM (fun pred => dictGet pred key)
    let mc ← mostCommon values
    pure (key, mc))

/-- `TemporalSmoother` state: `history` models the
`defaultdict(list)` in first-access insertion order. -/
structure TemporalSmoother where
  window_size : Nat
  history : List (Nat × List (List (String × String)))
deriving DecidableEq, Repr

/-- `TemporalSmoother.__init__(window_size)`. -/
def TemporalSmoother.init (window_size : Nat) : TemporalSmoother :=
  { window_size := window_size, history := [] }

/-- Write-back of one identity's history list (the `defaultdict` creates
the key on first access, appending it at the end of the dict order). -/
def setHistory (h : List (Nat × List (List (String × String)))) (k : Nat)
    (v : List (List (String × String))) :
    List (Nat × List (List (String × String))) :=
  if h.any (fun p => p.1 = k) then
    h.map (fun p => if p.1 = k then (k, v) else p)
  else h ++ [(k, v)]

/-- `TemporalSmoother.smooth(track_id, current_pred)`. -/
def TemporalSmoother.smooth (sm : TemporalSmoother) (track_id : Nat)
    (current_pred : List (String × String)) :
    Option (List (String × String)) × TemporalSmoother :=
  let h0 := ((sm.history.find? (fun p => p.1 = track_id)).map
    (fun p => p.2)).getD []
  let h1 := h0 ++ [current_pred]
  let h2 := if sm.window_size < h1.length then h1.tail else h1
  let sm' := { sm with history := setHistory sm.history track_id h2 }
  if h2.length < 2 then (some current_pred, sm')
  else (vote h2, sm')

/-- `TemporalSmoother.clear_track(track_id)`. -/
def TemporalSmoother.clear_track (sm : TemporalSmoother) (track_id : Nat) :
    TemporalSmoother :=
  { sm with history := sm.history.filter (fun p => ¬ p.1 = track_id) }

/-- The trimmed per-identity window after one `smooth` call: the stored
history plus the current prediction, the oldest entry dropped when the
window length is exceeded (mirrors the update that `smooth` stores). -/
def windowAfter (sm : TemporalSmoother) (id : Nat)
    (cur : List (String × String)) : List (List (String × String)) :=
  let h0 := ((sm.history.find? (fun p => p.1 = id)).map (fun p => p.2)).getD []
  let h1 := h0 ++ [cur]
  if sm.window_size < h1.length then h1.tail else h1

/-! ### Trigger zone (trigger_zone.py) -/

/-- `TriggerZoneConfig` dataclass (percentages). -/
structure TriggerZoneConfig where
  x_offset_pct : ℚ
  y_offset_pct : ℚ
  width_pct : ℚ
  height_pct : ℚ
deriving DecidableEq, Repr

/-- The dataclass defaults. -/
def TriggerZoneConfig.default : TriggerZoneConfig :=
  ⟨30, 20, 40, 60⟩

/-- `TriggerZoneConfig.validate()`. -/
def TriggerZoneConfig.validate (c : TriggerZoneConfig) : Bool :=
  decide ((0 ≤ c.x_offset_pct ∧ c.x_offset_pct ≤ 50) ∧
    (0 ≤ c.y_offset_pct ∧ c.y_offset_pct ≤ 50) ∧
    (20 ≤ c.width_pct ∧ c.width_pct ≤ 80) ∧
    (20 ≤ c.height_pct ∧ c.height_pct ≤ 80) ∧
    c.x_offset_pct + c.width_pct ≤ 100 ∧
    c.y_offset_pct + c.height_pct ≤ 100)

/-- `np.clip(x, lo, hi)`. -/
def clipQ (x lo hi : ℚ) : ℚ := min (max x lo) hi

/-- `TriggerZoneConfig.clamp()`. -/
def TriggerZoneConfig.clamp (c : TriggerZoneConfig) : TriggerZoneConfig :=
  let x_offset := clipQ c.x_offset_pct 0 50
  let y_offset := clipQ c.y_offset_pct 0 50
  let width0 := clipQ c.width_pct 20 80
  let height0 := clipQ c.height_pct 20 80
  { x_offset_pct := x_offset, y_offset_pct := y_offset,
    width_pct := if 100 < x_offset + width0 then 100 - x_offset else width0,
    height_pct :=
      if 100 < y_offset + height0 then 100 - y_offset else height0 }

/-- Python `int()` conversion: truncation toward zero. -/
def pyInt (q : ℚ) : ℤ := if q < 0 then -(Int.floor (-q)) else Int.floor q

/-- `TriggerZone` with the pixel boundaries computed by
`_update_boundaries`. -/
structure TriggerZone where
  frame_width : Nat
  frame_height : Nat
  config : TriggerZoneConfig
  x1 : ℤ
  y1 : ℤ
  x2 : ℤ
  y2 : ℤ
deriving DecidableEq, Repr

/-- `TriggerZone._update_boundaries()`: percentage-to-pixel conversion
followed by clamping into `[0, frame_width] × [0, frame_height]`. -/
def updateBoundaries (frame_width frame_height : Nat)
    (cfg : TriggerZoneConfig) : ℤ × ℤ × ℤ × ℤ :=
  let x1 := pyInt ((frame_width : ℚ) * cfg.x_offset_pct / 100)
  let y1 := pyInt ((frame_height : ℚ) * cfg.y_offset_pct / 100)
  let x2 := pyInt ((frame_width : ℚ)
    * (cfg.x_offset_pct + cfg.width_pct) / 100)
  let y2 := pyInt ((frame_height : ℚ)
    * (cfg.y_offset_pct + cfg.height_pct) / 100)
  (max 0 (min x1 frame_width), max 0 (min y1 frame_height),
   max 0 (min x2 frame_width), max 0 (min y2 frame_height))

/-- `TriggerZone.__init__(frame_width, frame_height, config)`: an invalid
config is clamped (with a warning), then the boundaries are computed. -/
def TriggerZone.init (frame_width frame_height : Nat)
    (config : Option TriggerZoneConfig) : TriggerZone :=
  let cfg0 := config.getD TriggerZoneConfig.default
  let cfg := if cfg0.validate then cfg0 else cfg0.clamp
  let b := updateBoundaries frame_width frame_height cfg
  { frame_width := frame_width, frame_height := frame_height,
    config := cfg, x1 := b.1, y1 := b.2.1, x2 := b.2.2.1, y2 := b.2.2.2 }

/-- `TriggerZone.contains_point(x, y)`. -/
def TriggerZone.contains_point (z : TriggerZone) (x y : ℚ) : Bool :=
  decide ((z.x1 : ℚ) ≤ x ∧ x ≤ (z.x2 : ℚ) ∧
    (z.y1 : ℚ) ≤ y ∧ y ≤ (z.y2 : ℚ))

/-! ### Label resolution (pipeline.py, `_classify_bottle`) -/

/-- `class_proba_map.get(label, 0.0)`. -/
def probaOf (probaMap : List (String × ℚ)) (label : String) : ℚ :=
  ((probaMap.find? (fun q => q.1 = label)).map (fun q => q.2)).getD 0

/-- The `best_proba`/`best_label` scan over a category (`best_proba`
starts at −1, `best_label` at `"UNKNOWN"`; strict improvement only, so the
first label attaining the maximum wins). -/
def bestLabelProba (category : List String)
    (probaMap : List (String × ℚ)) : String × ℚ :=
  category.foldl
    (fun best label =>
      if best.2 < probaOf probaMap label
        then (label, probaOf probaMap label) else best)
    ("UNKNOWN", -1)

/-- `predicted_labels_set.intersection(mapping_dict[col])` as the list of
distinct predicted labels that belong to the category. -/
def hitOf (predicted category : List String) : List String :=
  predicted.dedup.filter (fun p => category.contains p)

/-- Round half to even (the rounding of Python's `format(x, '.1f')`). -/
def halfEvenRound (x : ℚ) : ℤ :=
  let f := Int.floor x
  let r := x - f
  if r < 1/2 then f
  else if 1/2 < r then f + 1
  else if f % 2 = 0 then f else f + 1

/-- Decimal string of `k/10` with one digit after the point. -/
def fmtTenths (k : ℤ) : String :=
  if k < 0 then
    "-" ++ toString (k.natAbs / 10) ++ "." ++ toString (k.natAbs % 10)
  else toString (k.toNat / 10) ++ "." ++ toString (k.toNat % 10)

/-- `f"{p*100:.1f}"`: the probability as a percentage with one decimal. -/
def fmtPct (p : ℚ) : String := fmtTenths (halfEvenRound (p * 1000))

/-- The per-attribute body of the mapping loop of `_classify_bottle`:
single hit → that label; no hit → best label above the confidence
threshold or `"UNKNOWN"`; several hits → `"CONFLICT -> ..."`. -/
def resolveAttr (predicted category : List String)
    (probaMap : List (String × ℚ)) (thr : ℚ) : String :=
  let hit := hitOf predicted category
  let bl := (bestLabelProba category probaMap).1
  let bp := (bestLabelProba category probaMap).2
  if hit.length = 1 then hit.headD ""
  else if hit.length = 0 then
    (if thr ≤ bp then bl ++ " (" ++ fmtPct bp ++ "%)" else "UNKNOWN")
  else "CONFLICT -> " ++ bl ++ " (" ++ fmtPct bp ++ "%)"

/-! ### Theorems -/

theorem pickMin_fold_mem (l : List (Nat × Nat × ℚ)) :
    ∀ (a : Option (Nat × Nat × ℚ)) (x : Nat × Nat × ℚ),
      l.foldl pickMinStep a = some x → a = some x ∨ x ∈ l := by
  induction l with
  | nil => intro a x ha; exact Or.inl ha
  | cons y ys ih =>
    intro a x ha
    rw [List.foldl_cons] at ha
    rcases ih _ _ ha with h1 | h2
    · cases a with
      | none =>
        have hyx : y = x := by simpa [pickMinStep] using h1
        exact Or.inr (hyx ▸ List.mem_cons_self y ys)
      | some b =>
        by_cases hc : y.2.2 < b.2.2
        · have hyx : y = x := by simpa [pickMinStep, hc] using h1
          exact Or.inr (hyx ▸ List.mem_cons_self y ys)
        · have hbx : b = x := by simpa [pickMinStep, hc] using h1
          exact Or.inl (by rw [hbx])
    · exact Or.inr (List.mem_cons_of_mem y h2)

theorem pickMin_fold_le (l : List (Nat × Nat × ℚ)) :
    ∀ (a : Option (Nat × Nat × ℚ)) (x : Nat × Nat × ℚ),
      l.foldl pickMinStep a = some x →
      (∀ b, a = some b → x.2.2 ≤ b.2.2) ∧ ∀ y ∈ l, x.2.2 ≤ y.2.2 := by
  induction l with
  | nil =>
    intro a x ha
    rw [List.foldl_nil] at ha
    refine ⟨fun b hb => ?_, by simp⟩
    rw [ha] at hb
    cases hb
    exact le_refl _
  | cons y ys ih =>
    intro a x ha
    rw [List.foldl_cons] at ha
    obtain ⟨P1, P2⟩ := ih _ _ ha
    constructor
    · intro b hb
      subst hb
      by_cases hc : y.2.2 < b.2.2
      · exact le_of_lt (lt_of_le_of_lt (P1 y (by simp [pickMinStep, hc])) hc)
      · exact P1 b (by simp [pickMinStep, hc])
    · intro z hz
      rcases List.mem_cons.mp hz with hz | hz
      · subst hz
        cases a with
        | none => exact P1 z (by simp [pickMinStep])
        | some b =>
          by_cases hc : z.2.2 < b.2.2
          · exact P1 z (by simp [pickMinStep, hc])
          · exact le_trans (P1 b (by simp [pickMinStep, hc])) (not_lt.mp hc)
      · exact P2 z hz

theorem pickMin_fold_isSome (l : List (Nat × Nat × ℚ)) :
    ∀ (a : Option (Nat × Nat × ℚ)), a.isSome ∨ l ≠ [] →
      (l.foldl pickMinStep a).isSome := by
  induction l with
  | nil =>
    intro a ha
    rcases ha with h1 | h2
    · simpa using h1
    · exact absurd rfl h2
  | cons y ys ih =>
    intro a _
    rw [List.foldl_cons]
    apply ih
    left
    cases a with
    | none => simp [pickMinStep]
    | some b => by_cases hc : y.2.2 < b.2.2 <;> simp [pickMinStep, hc]

theorem argminPos_spec {f : Nat → Nat → ℚ} {m n : Nat} {i j : Nat} {v : ℚ}
    (h : argminPos f m n = some (i, j, v)) :
    i < m ∧ j < n ∧ v = f i j ∧ ∀ i' < m, ∀ j' < n, v ≤ f i' j' := by
  unfold argminPos pickMin at h
  have hmem := pickMin_fold_mem _ _ _ h
  have hle := (pickMin_fold_le _ _ _ h).2
  rcases hmem with h0 | hmem
  · exact absurd h0 (by simp)
  simp only [List.mem_flatMap, List.mem_map, List.mem_range] at hmem
  obtain ⟨a, ha, b, hb, heq⟩ := hmem
  cases heq
  refine ⟨ha, hb, rfl, ?_⟩
  intro i' hi' j' hj'
  exact hle (i', j', f i' j')
    (by simp only [List.mem_flatMap, List.mem_map, List.mem_range]
        exact ⟨i', hi', j', hj', rfl⟩)

theorem argminPos_isSome {f : Nat → Nat → ℚ} {m n : Nat}
    (hm : 0 < m) (hn : 0 < n) : (argminPos f m n).isSome := by
  unfold argminPos pickMin
  apply pickMin_fold_isSome
  right
  intro hcon
  have : (0, 0, f 0 0) ∈ (List.range m).flatMap
      (fun i => (List.range n).map (fun j => (i, j, f i j))) := by
    simp only [List.mem_flatMap, List.mem_map, List.mem_range]
    exact ⟨0, hm, 0, hn, rfl⟩
  rw [hcon] at this
  exact absurd this (List.not_mem_nil _)

theorem getD_cons_eraseIdx_perm {l : List Nat} :
    ∀ {i : Nat}, i < l.length → (l.getD i 0 :: l.eraseIdx i).Perm l := by
  induction l with
  | nil => intro i h; exact absurd h (by simp)
  | cons x xs ih =>
    intro i h
    match i with
    | 0 => simp [List.eraseIdx]
    | Nat.succ k =>
      have hk : k < xs.length := by simpa using h
      show (xs.getD k 0 :: (x :: xs.eraseIdx k)).Perm (x :: xs)
      exact (List.Perm.swap x (xs.getD k 0) (xs.eraseIdx k)).trans
        (List.Perm.cons x (ih hk))

theorem greedyLoop_spec (c : List (List ℚ)) (thresh : ℚ) :
    ∀ (fuel : Nat) (ua ub : List Nat) (ms : List (Nat × Nat)),
      (∀ p ∈ (greedyLoop c thresh fuel ua ub ms).1,
        p ∈ ms ∨ costAt c p.1 p.2 ≤ thresh) ∧
      ((greedyLoop c thresh fuel ua ub ms).1.map Prod.fst ++
        (greedyLoop c thresh fuel ua ub ms).2.1).Perm (ms.map Prod.fst ++ ua) ∧
      ((greedyLoop c thresh fuel ua ub ms).1.map Prod.snd ++
        (greedyLoop c thresh fuel ua ub ms).2.2).Perm (ms.map Prod.snd ++ ub) := by
  intro fuel
  induction fuel with
  | zero =>
    intro ua ub ms
    exact ⟨fun p hp => Or.inl hp, List.Perm.refl _, List.Perm.refl _⟩
  | succ fuel ih =>
    intro ua ub ms
    simp only [greedyLoop]
    split
    · exact ⟨fun p hp => Or.inl hp, List.Perm.refl _, List.Perm.refl _⟩
    · split
      · exact ⟨fun p hp => Or.inl hp, List.Perm.refl _, List.Perm.refl _⟩
      · rename_i i j v hm
        split
        · exact ⟨fun p hp => Or.inl hp, List.Perm.refl _, List.Perm.refl _⟩
        · rename_i hthr
          obtain ⟨hi, hj, hv, _⟩ := argminPos_spec hm
          obtain ⟨H1, H2, H3⟩ := ih (ua.eraseIdx i) (ub.eraseIdx j)
            (ms ++ [(ua.getD i 0, ub.getD j 0)])
          refine ⟨?_, ?_, ?_⟩
          · intro p hp
            rcases H1 p hp with hmem | hcost
            · rcases List.mem_append.mp hmem with h | h
              · exact Or.inl h
              · right
                have hpv : p = (ua.getD i 0, ub.getD j 0) := by simpa using h
                rw [hpv]
                exact hv ▸ not_lt.mp hthr
            · exact Or.inr hcost
          · refine H2.trans ?_
            simp only [List.map_append, List.map_cons, List.map_nil,
              List.append_assoc, List.singleton_append]
            exact List.Perm.append_left _ (getD_cons_eraseIdx_perm hi)
          · refine H3.trans ?_
            simp only [List.map_append, List.map_cons, List.map_nil,
              List.append_assoc, List.singleton_append]
            exact List.Perm.append_left _ (getD_cons_eraseIdx_perm hj)

/-- C7: for every cost matrix and acceptance threshold, the greedy matcher
returns no matched pair whose cost exceeds the threshold, at most
`min (#rows) (#cols)` matches, and the matches together with the unmatched
index lists partition the row indices and the column indices. -/
theorem C7_greedy_matcher_sound (c : List (List ℚ)) (thresh : ℚ) :
    (∀ p ∈ (linear_assignment c thresh).1, costAt c p.1 p.2 ≤ thresh) ∧
    (linear_assignment c thresh).1.length ≤
      min c.length (c.headD []).length ∧
    ((linear_assignment c thresh).1.map Prod.fst ++
      (linear_assignment c thresh).2.1).Perm (List.range c.length) ∧
    ((linear_assignment c thresh).1.map Prod.snd ++
      (linear_assignment c thresh).2.2).Perm
      (List.range (c.headD []).length) := by
  unfold linear_assignment
  split
  · refine ⟨by simp, by simp, ?_, ?_⟩
    · simp
    · simp
  · obtain ⟨H1, H2, H3⟩ := greedyLoop_spec c thresh c.length
      (List.range c.length) (List.range (c.headD []).length) []
    simp only [List.map_nil, List.nil_append] at H1 H2 H3
    refine ⟨?_, ?_, H2, H3⟩
    · intro p hp
      rcases H1 p hp with h | h
      · exact absurd h (List.not_mem_nil p)
      · exact h
    · have hl2 := H2.length_eq
      have hl3 := H3.length_eq
      simp only [List.length_append, List.length_map, List.length_range] at hl2 hl3
      omega

theorem update_tracked_activated (s : BYTETracker) (dets : List Det)
    (c : Nat) :
    ∀ t ∈ (BYTETracker.update s dets c).2.1.tracked_stracks,
      t.is_activated = true := by
  intro t ht
  rw [BYTETracker.update] at ht
  split at ht
  · simp at ht
  · simp only at ht
    exact (List.mem_filter.mp ht).2

/-- C9: calling `BYTETracker.update` with an empty detection array marks
every currently tracked track lost, returns the empty list, replaces the
lost-track list with exactly the previously tracked tracks, and leaves the
removed list (and the identity counter) untouched — tracks that were
already in the lost list are silently dropped, never marked removed. -/
theorem C9_update_empty_detections (s : BYTETracker) (count : Nat) :
    (BYTETracker.update s [] count).1 = [] ∧
    (BYTETracker.update s [] count).2.1.tracked_stracks = [] ∧
    (BYTETracker.update s [] count).2.1.lost_stracks
      = s.tracked_stracks.map STrack.mark_lost ∧
    (∀ t ∈ (BYTETracker.update s [] count).2.1.lost_stracks,
      t.is_activated = false) ∧
    (BYTETracker.update s [] count).2.1.removed_stracks
      = s.removed_stracks ∧
    (BYTETracker.update s [] count).2.2 = count := by
  refine ⟨rfl, rfl, rfl, ?_, rfl, rfl⟩
  intro t ht
  rw [show (BYTETracker.update s [] count).2.1.lost_stracks
    = s.tracked_stracks.map STrack.mark_lost from rfl] at ht
  obtain ⟨u, _, rfl⟩ := List.mem_map.mp ht
  rfl

theorem C9_update_empty_detections_witness :
    (((BYTETracker.update ((BYTETracker.update
        (BYTETracker.init (1/2) 30 (8/10)) [⟨⟨0, 0, 10, 10⟩, 9/10⟩] 0).2.1)
        [] 1).2.1.lost_stracks).headD dummySTrack).is_activated = false :=
  (C9_update_empty_detections ((BYTETracker.update
      (BYTETracker.init (1/2) 30 (8/10)) [⟨⟨0, 0, 10, 10⟩, 9/10⟩] 0).2.1)
      1).2.2.2.1 _ (by decide)

/-- C10: after every `update` each track in the tracked list is activated;
hence at every reachable state the `unconfirmed` partition computed at the
start of `update` is empty, and the unconfirmed-association stage
(`_match` on an empty track list) yields no matches and no unmatched
unconfirmed tracks to mark removed. -/
theorem C10_unconfirmed_always_empty :
    (∀ (s : BYTETracker) (dets : List Det) (c : Nat),
      ∀ t ∈ (BYTETracker.update s dets c).2.1.tracked_stracks,
        t.is_activated = true) ∧
    (∀ (s : BYTETracker) (c : Nat), BYTEReachable s c →
      s.tracked_stracks.filter (fun t => !t.is_activated) = []) ∧
    (∀ (mt : ℚ) (dl : List STrack),
      BYTETracker.matchLists mt [] dl = ([], [], List.range dl.length)) := by
  refine ⟨update_tracked_activated, ?_, ?_⟩
  · intro s c h
    induction h with
    | init tt tb mt c => rfl
    | step s c dets _ _ =>
      rw [List.filter_eq_nil_iff]
      intro t ht
      simp [update_tracked_activated s dets c t ht]
    | reset s c _ _ => rfl
  · intro mt dl
    rfl

theorem C10_unconfirmed_always_empty_witness :
    (BYTETracker.update (BYTETracker.init (1/2) 30 (8/10))
      [⟨⟨0, 0, 10, 10⟩, 9/10⟩] 0).2.1.tracked_stracks.filter
      (fun t => !t.is_activated) = [] :=
  C10_unconfirmed_always_empty.2.1 _ _
    (BYTEReachable.step _ _ _ (BYTEReachable.init (1/2) 30 (8/10) 0))

theorem getD_mem_or_eq {α : Type} (l : List α) (i : Nat) (d : α) :
    l.getD i d ∈ l ∨ l.getD i d = d := by
  induction l generalizing i with
  | nil => exact Or.inr rfl
  | cons x xs ih =>
    match i with
    | 0 => exact Or.inl (List.mem_cons_self _ _)
    | Nat.succ k =>
      rcases ih k with h | h
      · exact Or.inl (List.mem_cons_of_mem _ h)
      · exact Or.inr h

theorem initStep_fold_spec (tt : ℚ) (fid : Nat) :
    ∀ (cands : List STrack) (acc : List STrack × Nat),
      acc.2 ≤ (cands.foldl (initStep tt fid) acc).2 ∧
      (cands.foldl (initStep tt fid) acc).1.map (fun t => t.track_id)
        = acc.1.map (fun t => t.track_id) ++
          (List.range' (acc.2 + 1)
            ((cands.foldl (initStep tt fid) acc).2 - acc.2)).map some ∧
      ∀ t ∈ (cands.foldl (initStep tt fid) acc).1,
        t ∈ acc.1 ∨ t.is_activated = true := by
  intro cands
  induction cands with
  | nil =>
    intro acc
    exact ⟨le_refl _, by simp, fun t ht => Or.inl ht⟩
  | cons x cs ih =>
    intro acc
    rw [List.foldl_cons]
    by_cases hx : x.score < tt
    · rw [show initStep tt fid acc x = acc from by simp [initStep, hx]]
      exact ih acc
    · have hstep : initStep tt fid acc x
          = (acc.1 ++ [(STrack.activate x fid acc.2).1], acc.2 + 1) := by
        simp [initStep, hx, STrack.activate]
      rw [hstep]
      obtain ⟨I1, I2, I3⟩ :=
        ih (acc.1 ++ [(STrack.activate x fid acc.2).1], acc.2 + 1)
      refine ⟨le_trans (Nat.le_succ _) I1, ?_, ?_⟩
      · rw [I2]
        simp only [List.map_append, List.map_cons, List.map_nil,
          List.append_assoc, List.singleton_append]
        congr 1
        rw [show (cs.foldl (initStep tt fid)
              (acc.1 ++ [(STrack.activate x fid acc.2).1], acc.2 + 1)).2 - acc.2
            = ((cs.foldl (initStep tt fid)
              (acc.1 ++ [(STrack.activate x fid acc.2).1], acc.2 + 1)).2
                - (acc.2 + 1)) + 1
          from by omega, List.range'_succ]
        simp [STrack.activate]
      · intro t ht
        rcases I3 t ht with h | h
        · rcases List.mem_append.mp h with h' | h'
          · exact Or.inl h'
          · right
            have ht' : t = (STrack.activate x fid acc.2).1 := by simpa using h'
            rw [ht']
            rfl
        · exact Or.inr h

theorem initNewTracks_spec (cands : List STrack) (tt : ℚ) (fid count : Nat) :
    count ≤ (initNewTracks cands tt fid count).2 ∧
    (initNewTracks cands tt fid count).1.map (fun t => t.track_id)
      = (List.range' (count + 1)
          ((initNewTracks cands tt fid count).2 - count)).map some ∧
    ∀ t ∈ (initNewTracks cands tt fid count).1, t.is_activated = true := by
  obtain ⟨I1, I2, I3⟩ := initStep_fold_spec tt fid cands ([], count)
  refine ⟨I1, by simpa using I2, ?_⟩
  intro t ht
  rcases I3 t ht with h | h
  · exact absurd h (List.not_mem_nil t)
  · exact h

theorem IdLe_dummy (c : Nat) : IdLe c dummySTrack := by
  intro i h
  exact absurd h (by simp [dummySTrack, STrack.init])

theorem IdLe_getD {c : Nat} {l : List STrack} (h : ∀ t ∈ l, IdLe c t)
    (k : Nat) : IdLe c (l.getD k dummySTrack) := by
  rcases getD_mem_or_eq l k dummySTrack with hm | he
  · exact h _ hm
  · rw [he]
    exact IdLe_dummy c

theorem IdLe_update {c : Nat} {t d : STrack} {fid : Nat} (h : IdLe c t) :
    IdLe c (STrack.update t d fid) := h

theorem IdLe_mark_lost {c : Nat} {t : STrack} (h : IdLe c t) :
    IdLe c t.mark_lost := h

theorem IdLe_mark_removed {c : Nat} {t : STrack} (h : IdLe c t) :
    IdLe c t.mark_removed := h

theorem CounterInv_tracked {s : BYTETracker} {c : Nat} (h : CounterInv s c) :
    ∀ t ∈ s.tracked_stracks, IdLe c t := by
  intro t ht i hi
  refine h i ?_
  simp only [idsOf, List.mem_filterMap, List.mem_append]
  exact ⟨t, Or.inl (Or.inl ht), hi⟩

theorem CounterInv_lost {s : BYTETracker} {c : Nat} (h : CounterInv s c) :
    ∀ t ∈ s.lost_stracks, IdLe c t := by
  intro t ht i hi
  refine h i ?_
  simp only [idsOf, List.mem_filterMap, List.mem_append]
  exact ⟨t, Or.inl (Or.inr ht), hi⟩

theorem CounterInv_removed {s : BYTETracker} {c : Nat} (h : CounterInv s c) :
    ∀ t ∈ s.removed_stracks, IdLe c t := by
  intro t ht i hi
  refine h i ?_
  simp only [idsOf, List.mem_filterMap, List.mem_append]
  exact ⟨t, Or.inr ht, hi⟩

theorem map_eq_map_some_filterMap {α β : Type} (f : α → Option β) :
    ∀ (l : List α) (L : List β), l.map f = L.map some →
      l.filterMap f = L := by
  intro l
  induction l with
  | nil =>
    intro L h
    cases L with
    | nil => rfl
    | cons y ys => exact absurd h (by simp)
  | cons x xs ih =>
    intro L h
    cases L with
    | nil => exact absurd h (by simp)
    | cons y ys =>
      simp only [List.map_cons, List.cons.injEq] at h
      rw [List.filterMap_cons, h.1]
      rw [ih ys h.2]

theorem IdLe.mono {c c' : Nat} {t : STrack} (h : IdLe c t) (hcc : c ≤ c') :
    IdLe c' t :=
  fun i hi => le_trans (h i hi) hcc

theorem IdLe_map_update (c fid : Nat) (L1 L2 : List STrack)
    (h1 : ∀ t ∈ L1, IdLe c t) (X : List (Nat × Nat)) :
    ∀ t ∈ X.map (fun p => (L1.getD p.1 dummySTrack).update
      (L2.getD p.2 dummySTrack) fid), IdLe c t := by
  intro t ht
  obtain ⟨p, _, rfl⟩ := List.mem_map.mp ht
  exact IdLe_update (IdLe_getD h1 p.1)

theorem IdLe_map_getD (c : Nat) (L : List STrack)
    (h : ∀ t ∈ L, IdLe c t) (X : List Nat) :
    ∀ t ∈ X.map (fun i => L.getD i dummySTrack), IdLe c t := by
  intro t ht
  obtain ⟨i, _, rfl⟩ := List.mem_map.mp ht
  exact IdLe_getD h i

theorem IdLe_map_getD_mark_lost (c : Nat) (L : List STrack)
    (h : ∀ t ∈ L, IdLe c t) (X : List Nat) :
    ∀ t ∈ X.map (fun i => (L.getD i dummySTrack).mark_lost), IdLe c t := by
  intro t ht
  obtain ⟨i, _, rfl⟩ := List.mem_map.mp ht
  exact IdLe_mark_lost (IdLe_getD h i)

theorem IdLe_map_getD_mark_removed (c : Nat) (L : List STrack)
    (h : ∀ t ∈ L, IdLe c t) (X : List Nat) :
    ∀ t ∈ X.map (fun i => (L.getD i dummySTrack).mark_removed), IdLe c t := by
  intro t ht
  obtain ⟨i, _, rfl⟩ := List.mem_map.mp ht
  exact IdLe_mark_removed (IdLe_getD h i)

theorem IdLe_map_mark_removed (c : Nat) (L : List STrack)
    (h : ∀ t ∈ L, IdLe c t) :
    ∀ t ∈ L.map STrack.mark_removed, IdLe c t := by
  intro t ht
  obtain ⟨u, hu, rfl⟩ := List.mem_map.mp ht
  exact IdLe_mark_removed (h u hu)

theorem initNewTracks_IdLe (cands : List STrack) (tt : ℚ) (fid count : Nat) :
    ∀ t ∈ (initNewTracks cands tt fid count).1,
      IdLe (initNewTracks cands tt fid count).2 t := by
  obtain ⟨I1, I2, _⟩ := initNewTracks_spec cands tt fid count
  intro t ht i hi
  have hmm : some i ∈ (initNewTracks cands tt fid count).1.map
      (fun t => t.track_id) := by
    exact List.mem_map.mpr ⟨t, ht, hi⟩
  rw [I2] at hmm
  obtain ⟨j, hj, hji⟩ := List.mem_map.mp hmm
  cases hji
  rw [List.mem_range'] at hj
  omega

theorem emitted_nil_of_IdLe (c : Nat) (X : List STrack)
    (hX : ∀ t ∈ X, IdLe c t) :
    ((X.filter (fun t => t.is_activated)).filterMap
      (fun t => t.track_id)).filter (fun i => c < i) = [] := by
  rw [List.filter_eq_nil_iff]
  intro i hi
  simp only [List.mem_filterMap, List.mem_filter] at hi
  obtain ⟨t, ⟨htX, _⟩, hid⟩ := hi
  simp only [decide_eq_true_eq, not_lt]
  exact hX t htX i hid

theorem emitted_N (c cN : Nat) (N : List STrack)
    (hNmap : N.map (fun t => t.track_id)
      = (List.range' (c + 1) (cN - c)).map some)
    (hNact : ∀ t ∈ N, t.is_activated = true) :
    ((N.filter (fun t => t.is_activated)).filterMap
      (fun t => t.track_id)).filter (fun i => c < i)
      = List.range' (c + 1) (cN - c) := by
  have hfN : N.filter (fun t => t.is_activated) = N :=
    List.filter_eq_self.mpr (by simpa using hNact)
  rw [hfN, map_eq_map_some_filterMap _ N _ hNmap]
  apply List.filter_eq_self.mpr
  intro i hi
  rw [List.mem_range'] at hi
  simp only [decide_eq_true_eq]
  omega

theorem merge_emitted (c cN : Nat) (A B C N : List STrack)
    (hA : ∀ t ∈ A, IdLe c t) (hB : ∀ t ∈ B, IdLe c t)
    (hC : ∀ t ∈ C, IdLe c t)
    (hNmap : N.map (fun t => t.track_id)
      = (List.range' (c + 1) (cN - c)).map some)
    (hNact : ∀ t ∈ N, t.is_activated = true) :
    (((A ++ B ++ C ++ N).filter (fun t => t.is_activated)).filterMap
      (fun t => t.track_id)).filter (fun i => c < i)
      = List.range' (c + 1) (cN - c) := by
  have hsplit : (A ++ B ++ C ++ N).filter (fun t => t.is_activated)
      = A.filter (fun t => t.is_activated) ++ B.filter (fun t => t.is_activated)
        ++ C.filter (fun t => t.is_activated)
        ++ N.filter (fun t => t.is_activated) := by
    simp [List.filter_append]
  rw [hsplit]
  simp only [List.filterMap_append, List.filter_append]
  rw [emitted_nil_of_IdLe c A hA, emitted_nil_of_IdLe c B hB,
    emitted_nil_of_IdLe c C hC, emitted_N c cN N hNmap hNact]
  simp

theorem merge_inv (c cN : Nat)
    (A B C N lostL remU remT oldRem : List STrack)
    (hcc : c ≤ cN)
    (hA : ∀ t ∈ A, IdLe c t) (hB : ∀ t ∈ B, IdLe c t)
    (hC : ∀ t ∈ C, IdLe c t) (hLost : ∀ t ∈ lostL, IdLe c t)
    (hRemU : ∀ t ∈ remU, IdLe c t) (hRemT : ∀ t ∈ remT, IdLe c t)
    (hOldRem : ∀ t ∈ oldRem, IdLe c t)
    (hN : ∀ t ∈ N, IdLe cN t) :
    ∀ i ∈ ((A ++ B ++ C ++ N).filter (fun t => t.is_activated) ++
        lostL.filter (fun t => !(remU ++ remT).any (fun r => r.uid = t.uid)) ++
        (oldRem ++ (remU ++ remT))).filterMap (fun t => t.track_id),
      i ≤ cN := by
  have hall : ∀ t ∈ (A ++ B ++ C ++ N).filter (fun t => t.is_activated) ++
      lostL.filter (fun t => !(remU ++ remT).any (fun r => r.uid = t.uid)) ++
      (oldRem ++ (remU ++ remT)), IdLe cN t := by
    intro t ht
    rcases List.mem_append.mp ht with h12 | h3
    · rcases List.mem_append.mp h12 with h1 | h2
      · have hm := List.mem_of_mem_filter h1
        rcases List.mem_append.mp hm with hm' | hN'
        · rcases List.mem_append.mp hm' with hm'' | hC'
          · rcases List.mem_append.mp hm'' with hA' | hB'
            · exact (hA t hA').mono hcc
            · exact (hB t hB').mono hcc
          · exact (hC t hC').mono hcc
        · exact hN t hN'
      · exact (hLost t (List.mem_of_mem_filter h2)).mono hcc
    · rcases List.mem_append.mp h3 with hOld | hRem
      · exact (hOldRem t hOld).mono hcc
      · rcases List.mem_append.mp hRem with hU | hT
        · exact (hRemU t hU).mono hcc
        · exact (hRemT t hT).mono hcc
  intro i hi
  obtain ⟨t, hmem, hid⟩ := List.mem_filterMap.mp hi
  exact hall t hmem i hid

theorem update_emitted (s : BYTETracker) (dets : List Det) (c : Nat)
    (hInv : CounterInv s c) :
    c ≤ (BYTETracker.update s dets c).2.2 ∧
    CounterInv (BYTETracker.update s dets c).2.1
      (BYTETracker.update s dets c).2.2 ∧
    ((BYTETracker.update s dets c).1.filterMap (fun t => t.track_id)).filter
      (fun i => c < i)
      = List.range' (c + 1) ((BYTETracker.update s dets c).2.2 - c) := by
  have hpool : ∀ t ∈ s.tracked_stracks.filter (fun t => t.is_activated),
      IdLe c t :=
    fun t ht => CounterInv_tracked hInv t (List.mem_of_mem_filter ht)
  have hunconf : ∀ t ∈ s.tracked_stracks.filter (fun t => !t.is_activated),
      IdLe c t :=
    fun t ht => CounterInv_tracked hInv t (List.mem_of_mem_filter ht)
  simp only [BYTETracker.update]
  split
  · refine ⟨le_refl c, ?_, by simp⟩
    intro i hi
    simp only [idsOf, List.mem_filterMap, List.mem_append, List.mem_map] at hi
    obtain ⟨t, hmem, hid⟩ := hi
    rcases hmem with (h1 | h2) | h3
    · exact absurd h1 (List.not_mem_nil t)
    · obtain ⟨u, hu, rfl⟩ := h2
      exact CounterInv_tracked hInv u hu i hid
    · exact CounterInv_removed hInv t h3 i hid
  · refine ⟨(initNewTracks_spec _ _ _ _).1, ?_, ?_⟩
    · intro i hi
      simp only [idsOf] at hi
      refine merge_inv c _ _ _ _ _ _ _ _ _
        (initNewTracks_spec _ _ _ _).1
        (IdLe_map_update c _ _ _ hpool _)
        (IdLe_map_update c _ _ _ (IdLe_map_getD c _ hpool _) _)
        (IdLe_map_update c _ _ _ hunconf _)
        (IdLe_map_getD_mark_lost c _ (IdLe_map_getD c _ hpool _) _)
        (IdLe_map_getD_mark_removed c _ hunconf _)
        (IdLe_map_mark_removed c _
          (fun t ht => CounterInv_lost hInv t (List.mem_of_mem_filter ht)))
        (CounterInv_removed hInv)
        (initNewTracks_IdLe _ _ _ _) i hi
    · exact merge_emitted c _ _ _ _ _
        (IdLe_map_update c _ _ _ hpool _)
        (IdLe_map_update c _ _ _ (IdLe_map_getD c _ hpool _) _)
        (IdLe_map_update c _ _ _ hunconf _)
        (initNewTracks_spec _ _ _ _).2.1
        (initNewTracks_spec _ _ _ _).2.2

/-- C2 (amended): as long as no `reset` intervenes (by this instance or by
any other instance of the same process, since `STrack._count` is shared),
the identities a tracker emits over any run of updates are exactly the
counter interval `(c, c']` in order — strictly increasing with no repeats.
A `reset` by any instance zeroes the shared counter and voids the
guarantee (see the counterexample). -/
theorem C2_ids_strictly_increasing_between_resets
    (batches : List (List Det)) :
    ∀ (s : BYTETracker) (c : Nat), CounterInv s c →
      c ≤ runCounter s c batches ∧
      runEmitted s c batches
        = List.range' (c + 1) (runCounter s c batches - c) ∧
      (runEmitted s c batches).Pairwise (· < ·) := by
  induction batches with
  | nil =>
    intro s c _
    exact ⟨le_refl c, by simp [runEmitted, runCounter], by
      simp [runEmitted]⟩
  | cons ds rest ih =>
    intro s c hInv
    obtain ⟨U1, U2, U3⟩ := update_emitted s ds c hInv
    obtain ⟨R1, R2, R3⟩ := ih (BYTETracker.update s ds c).2.1
      (BYTETracker.update s ds c).2.2 U2
    have h2 : runEmitted s c (ds :: rest)
        = List.range' (c + 1) (runCounter s c (ds :: rest) - c) := by
      simp only [runEmitted, runCounter]
      rw [U3, R2]
      rw [show (BYTETracker.update s ds c).2.2 + 1
          = (c + 1) + ((BYTETracker.update s ds c).2.2 - c) from by omega]
      rw [List.range'_append_1]
      congr 1
      omega
    refine ⟨le_trans U1 (by simpa only [runCounter] using R1), h2, ?_⟩
    rw [h2]
    exact List.pairwise_lt_range' _ _

theorem C2_ids_strictly_increasing_witness :
    (runEmitted (BYTETracker.init (1/2) 30 (8/10)) 0
      [[⟨⟨0, 0, 10, 10⟩, 9/10⟩], [⟨⟨20, 20, 30, 30⟩, 9/10⟩]]).Pairwise
      (· < ·) :=
  (C2_ids_strictly_increasing_between_resets
    [[⟨⟨0, 0, 10, 10⟩, 9/10⟩], [⟨⟨20, 20, 30, 30⟩, 9/10⟩]]
    (BYTETracker.init (1/2) 30 (8/10)) 0
    (by intro i hi; simp [idsOf, BYTETracker.init] at hi)).2.2

theorem processStrack_cap {m : Nat} (hm : 1 ≤ m) {l : List BottleTrack}
    (h : ∀ t ∈ l, CapOk m t) (st : STrack) :
    ∀ t ∈ processStrack l st, CapOk m t := by
  intro t ht
  unfold processStrack at ht
  split at ht
  · obtain ⟨u, hu, hut⟩ := List.mem_map.mp ht
    by_cases hc : u.track_id = st.track_id
    · rw [if_pos hc] at hut
      subst hut
      intro hle
      rcases h u hu hle with hF | hC
      · left
        simp [hF]
      · right
        simp [hC]
    · rw [if_neg hc] at hut
      exact hut ▸ h u hu
  · rcases List.mem_append.mp ht with h1 | h2
    · exact h t h1
    · have : t = BottleTrack.mkNew st.track_id st.tlbr st.score := by
        simpa using h2
      subst this
      intro hle
      exact absurd hle (by simp [BottleTrack.mkNew]; omega)

theorem foldl_processStrack_cap {m : Nat} (hm : 1 ≤ m) :
    ∀ (sts : List STrack) (l : List BottleTrack),
      (∀ t ∈ l, CapOk m t) →
      ∀ t ∈ sts.foldl processStrack l, CapOk m t := by
  intro sts
  induction sts with
  | nil => intro l h; exact h
  | cons st rest ih =>
    intro l h
    rw [List.foldl_cons]
    exact ih _ (processStrack_cap hm h st)

theorem ageStep_cap {m : Nat} {t : BottleTrack} (ids : List (Option Nat))
    (h : CapOk m t) : CapOk m (ageStep ids t) := by
  unfold ageStep
  split
  · exact h
  · exact h

theorem update_cap (bt : BottleTracker) (dets : List Det) (c : Nat)
    (hm : 1 ≤ bt.max_classification_attempts)
    (h : ∀ t ∈ bt.tracks, CapOk bt.max_classification_attempts t) :
    ∀ t ∈ (BottleTracker.update bt dets c).2.1.tracks,
      CapOk bt.max_classification_attempts t := by
  intro t ht
  simp only [BottleTracker.update] at ht
  have h1 := foldl_processStrack_cap hm
    (bt.byte_tracker.update dets c).1 bt.tracks h
  split at ht
  · have hsub := List.take_subset _ _ ht
    have hmem := List.mem_mergeSort.mp hsub
    obtain ⟨u, hu, rfl⟩ := List.mem_map.mp (List.mem_of_mem_filter hmem)
    exact ageStep_cap _ (h1 u hu)
  · obtain ⟨u, hu, rfl⟩ := List.mem_map.mp (List.mem_of_mem_filter ht)
    exact ageStep_cap _ (h1 u hu)

theorem modify_cap {m : Nat} {l : List BottleTrack} (tid : Nat)
    (f : BottleTrack → BottleTrack)
    (h : ∀ t ∈ l, CapOk m t) (hf : ∀ t ∈ l, CapOk m t → CapOk m (f t)) :
    ∀ t ∈ l.map (fun t => if t.track_id = some tid then f t else t),
      CapOk m t := by
  intro t ht
  obtain ⟨u, hu, hut⟩ := List.mem_map.mp ht
  by_cases hc : u.track_id = some tid
  · rw [if_pos hc] at hut
    exact hut ▸ hf u hu (h u hu)
  · rw [if_neg hc] at hut
    exact hut ▸ h u hu

theorem mark_classified_max (bt : BottleTracker) (tid : Nat)
    (res : List (String × String)) :
    (BottleTracker.mark_classified bt tid res).2.max_classification_attempts
      = bt.max_classification_attempts := by
  unfold BottleTracker.mark_classified
  cases bt.get_track_by_id tid <;> rfl

theorem mark_failed_max (bt : BottleTracker) (tid : Nat) :
    (BottleTracker.mark_failed bt tid).2.max_classification_attempts
      = bt.max_classification_attempts := by
  unfold BottleTracker.mark_failed
  cases bt.get_track_by_id tid <;> rfl

theorem increment_max (bt : BottleTracker) (tid : Nat) :
    (BottleTracker.increment_classification_attempts
      bt tid).2.max_classification_attempts
      = bt.max_classification_attempts := by
  unfold BottleTracker.increment_classification_attempts
  cases bt.get_track_by_id tid <;> rfl

theorem remove_track_max (bt : BottleTracker) (tid : Nat) :
    (BottleTracker.remove_track bt tid).2.max_classification_attempts
      = bt.max_classification_attempts := by
  unfold BottleTracker.remove_track
  split <;> rfl

/-- C1 (amended): whenever the configured maximum is at least 1, every
tracked object reachable through the public operations whose attempt
counter has reached the maximum is in state FAILED or CLASSIFIED (the
latter only when `mark_classified` was invoked on an already-capped
object), and `should_classify` is false for it — so no further
classification attempts are made.  The original claim's "state = FAILED"
is refuted by `C1_attempt_cap_counterexample`. -/
theorem C1_attempt_cap_invariant :
    (∀ (bt : BottleTracker) (c : Nat), BottleReachable bt c →
      1 ≤ bt.max_classification_attempts →
      ∀ t ∈ bt.tracks,
        bt.max_classification_attempts ≤ t.classification_attempts →
        t.state = TrackingState.FAILED ∨
          t.state = TrackingState.CLASSIFIED) ∧
    (∀ (bt : BottleTracker) (tid : Nat) (t : BottleTrack),
      bt.get_track_by_id tid = some t →
      bt.max_classification_attempts ≤ t.classification_attempts →
      bt.should_classify tid = false) := by
  constructor
  · intro bt c hreach
    induction hreach with
    | init ma mh it mca mt tt c =>
      intro _ t ht
      exact absurd ht (List.not_mem_nil t)
    | update bt c dets _ ih =>
      intro hm
      exact update_cap bt dets c hm (ih hm)
    | mark_classified bt c tid res _ ih =>
      simp only [mark_classified_max]
      intro hm t ht
      revert ht
      show t ∈ (BottleTracker.mark_classified bt tid res).2.tracks → _
      unfold BottleTracker.mark_classified
      cases hg : bt.get_track_by_id tid with
      | none =>
        intro ht
        exact ih hm t ht
      | some u =>
        intro ht
        refine modify_cap tid _ (ih hm) ?_ t ht
        intro v _ _ _
        right
        rfl
    | mark_failed bt c tid _ ih =>
      simp only [mark_failed_max]
      intro hm t ht
      revert ht
      show t ∈ (BottleTracker.mark_failed bt tid).2.tracks → _
      unfold BottleTracker.mark_failed
      cases hg : bt.get_track_by_id tid with
      | none =>
        intro ht
        exact ih hm t ht
      | some u =>
        intro ht
        refine modify_cap tid _ (ih hm) ?_ t ht
        intro v _ _ _
        left
        rfl
    | increment bt c tid _ ih =>
      simp only [increment_max]
      intro hm t ht
      revert ht
      show t ∈
        (BottleTracker.increment_classification_attempts bt tid).2.tracks → _
      unfold BottleTracker.increment_classification_attempts
      cases hg : bt.get_track_by_id tid with
      | none =>
        intro ht
        exact ih hm t ht
      | some u =>
        intro ht
        refine modify_cap tid _ (ih hm) ?_ t ht
        intro v _ _
        by_cases hc : bt.max_classification_attempts ≤
            v.classification_attempts + 1
        · rw [if_pos hc]
          intro _
          left
          rfl
        · rw [if_neg hc]
          intro hle
          exact absurd hle hc
    | remove bt c tid _ ih =>
      simp only [remove_track_max]
      intro hm t ht
      revert ht
      show t ∈ (BottleTracker.remove_track bt tid).2.tracks → _
      unfold BottleTracker.remove_track
      split
      · intro ht
        exact ih hm t (List.mem_of_mem_filter ht)
      · intro ht
        exact ih hm t ht
    | reset bt c _ _ =>
      intro _ t ht
      exact absurd ht (List.not_mem_nil t)
  · intro bt tid t hget hle
    simp only [BottleTracker.should_classify, hget]
    have hnot : ¬ (t.classification_attempts <
        bt.max_classification_attempts) := not_lt.mpr hle
    simp [hnot]

/-- C1 counterexample: at a state reachable through the public operations
(one update, two attempt increments reaching the maximum of 2, then
`mark_classified`), the track's attempt counter equals the maximum yet
its state is CLASSIFIED, not FAILED — `mark_classified` overwrites the
FAILED state unconditionally. -/
theorem C1_attempt_cap_counterexample :
    (exampleCapState.max_classification_attempts = 2 ∧
      (exampleCapState.get_track_by_id 1).map
        (fun t => (t.classification_attempts, t.state))
        = some (2, TrackingState.CLASSIFIED) ∧
      TrackingState.CLASSIFIED ≠ TrackingState.FAILED) ∧
    BottleReachable exampleCapState
      (BottleTracker.update (BottleTracker.init 30 1 (3/10) 2 20 (1/2))
        [⟨⟨0, 0, 10, 10⟩, 9/10⟩] 0).2.2 :=
  ⟨by decide,
   BottleReachable.mark_classified _ _ 1 []
     (BottleReachable.increment _ _ 1
       (BottleReachable.increment _ _ 1
         (BottleReachable.update _ 0 _
           (BottleReachable.init 30 1 (3/10) 2 20 (1/2) 0))))⟩

theorem C1_attempt_cap_invariant_witness :
    BottleTracker.should_classify exampleCapState 1 = false :=
  C1_attempt_cap_invariant.2 exampleCapState 1
    ((exampleCapState.get_track_by_id 1).getD
      (BottleTrack.mkNew none ⟨0, 0, 0, 0⟩ 0))
    (by decide) (by decide)

/-- C8: `should_classify(id)` is true iff a track with that identity
exists, its state is NEW or TRACKED, and its attempt counter is strictly
below the configured maximum; for an unknown identity it is false. -/
theorem C8_should_classify_characterization (bt : BottleTracker)
    (tid : Nat) :
    (bt.should_classify tid = true ↔
      ∃ t, bt.get_track_by_id tid = some t ∧
        (t.state = TrackingState.NEW ∨ t.state = TrackingState.TRACKED) ∧
        t.classification_attempts < bt.max_classification_attempts) ∧
    (bt.get_track_by_id tid = none → bt.should_classify tid = false) := by
  constructor
  · unfold BottleTracker.should_classify
    cases hg : bt.get_track_by_id tid with
    | none => simp
    | some u =>
      simp only [Bool.and_eq_true, decide_eq_true_eq]
      constructor
      · rintro ⟨h1, h2⟩
        exact ⟨u, rfl, h1, h2⟩
      · rintro ⟨t, ht, h1, h2⟩
        cases ht
        exact ⟨h1, h2⟩
  · intro hg
    unfold BottleTracker.should_classify
    rw [hg]

theorem C8_should_classify_witness :
    BottleTracker.should_classify
      (BottleTracker.init 30 1 (3/10) 2 20 (1/2)) 7 = false :=
  (C8_should_classify_characterization
    (BottleTracker.init 30 1 (3/10) 2 20 (1/2)) 7).2 rfl

theorem length_filter_lt_of_mem {α : Type} {l : List α} {p : α → Bool}
    {x : α} (hx : x ∈ l) (hpx : p x = false) :
    (l.filter p).length < l.length := by
  induction l with
  | nil => exact absurd hx (List.not_mem_nil x)
  | cons y ys ih =>
    rcases List.mem_cons.mp hx with rfl | hxs
    · rw [List.filter_cons, hpx]
      exact Nat.lt_succ_of_le (List.length_filter_le p ys)
    · rw [List.filter_cons]
      by_cases hpy : p y = true
      · rw [if_pos hpy]
        exact Nat.succ_lt_succ (ih hxs)
      · rw [if_neg hpy]
        exact Nat.lt_succ_of_lt (ih hxs)

theorem applyCacheOp_size {c : ClassificationCache} (op : CacheOp)
    (h : c.cache.length ≤ c.max_size) :
    (applyCacheOp c op).cache.length ≤ (applyCacheOp c op).max_size := by
  cases op with
  | get k =>
    show ((c.get k).2).cache.length ≤ ((c.get k).2).max_size
    unfold ClassificationCache.get
    cases hf : c.cache.find? (fun p => p.1 = k) with
    | none => exact h
    | some p =>
      have hmem := List.mem_of_find?_eq_some hf
      have hp := List.find?_some hf
      simp only [decide_eq_true_eq] at hp
      have hlt : (c.cache.filter (fun q => ¬ q.1 = k)).length
          < c.cache.length :=
        length_filter_lt_of_mem hmem (by simp [hp])
      simp only [List.length_append, List.length_cons, List.length_nil]
      omega
  | put k v =>
    show (c.put k v).cache.length ≤ (c.put k v).max_size
    unfold ClassificationCache.put
    split
    · rename_i hany
      obtain ⟨p, hmem, hp⟩ := List.any_eq_true.mp hany
      simp only [decide_eq_true_eq] at hp
      have hlt : (c.cache.filter (fun q => ¬ q.1 = k)).length
          < c.cache.length :=
        length_filter_lt_of_mem hmem (by simp [hp])
      simp only [List.length_append, List.length_cons, List.length_nil]
      omega
    · show (if c.max_size < (c.cache ++ [(k, v)]).length
          then (c.cache ++ [(k, v)]).tail
          else c.cache ++ [(k, v)]).length ≤ c.max_size
      split
      · simp only [List.length_tail, List.length_append,
          List.length_cons, List.length_nil]
        omega
      · rename_i hlen
        simp only [List.length_append, List.length_cons,
          List.length_nil] at hlen ⊢
        omega
  | remove k =>
    show ((c.remove k).2).cache.length ≤ ((c.remove k).2).max_size
    unfold ClassificationCache.remove
    split
    · exact Nat.le_trans (List.length_filter_le _ _) h
    · exact h
  | clear => exact Nat.le_trans (Nat.zero_le _) h

theorem applyCacheOp_max (c : ClassificationCache) (op : CacheOp) :
    (applyCacheOp c op).max_size = c.max_size := by
  cases op with
  | get k =>
    show ((c.get k).2).max_size = c.max_size
    unfold ClassificationCache.get
    cases c.cache.find? (fun p => p.1 = k) <;> rfl
  | put k v =>
    show (c.put k v).max_size = c.max_size
    unfold ClassificationCache.put
    split <;> rfl
  | remove k =>
    show ((c.remove k).2).max_size = c.max_size
    unfold ClassificationCache.remove
    split <;> rfl
  | clear => rfl

/-- C4: over every sequence of cache operations the number of stored
entries never exceeds the configured `max_size`; an insertion of a new key
into a full cache evicts exactly the front (least-recently-accessed)
entry; a `get` hit moves its entry to the back (most recent); and the
concrete `max_size = 2` trace `put 1 A; put 2 B; put 3 C` leaves key 1
absent while keys 2 and 3 return their stored values. -/
theorem C4_cache_bounded_lru :
    (∀ (m : Nat) (ops : List CacheOp),
      (runCacheOps (ClassificationCache.init m) ops).cache.length ≤ m) ∧
    (∀ (c : ClassificationCache) (k : Nat) (v : List (String × String)),
      (c.cache.any (fun p => p.1 = k)) = false →
      c.cache.length = c.max_size → 1 ≤ c.max_size →
      (c.put k v).cache = c.cache.tail ++ [(k, v)]) ∧
    (∀ (c : ClassificationCache) (k : Nat)
      (p : Nat × List (String × String)),
      c.cache.find? (fun q => q.1 = k) = some p →
      ((c.get k).2).cache.getLast? = some p) ∧
    (((((ClassificationCache.init 2).put 1 [("v", "A")]).put 2
        [("v", "B")]).put 3 [("v", "C")]).get 1).1 = none ∧
    (((((ClassificationCache.init 2).put 1 [("v", "A")]).put 2
        [("v", "B")]).put 3 [("v", "C")]).get 2).1 = some [("v", "B")] ∧
    (((((ClassificationCache.init 2).put 1 [("v", "A")]).put 2
        [("v", "B")]).put 3 [("v", "C")]).get 3).1 = some [("v", "C")] := by
  have hrun : ∀ (ops : List CacheOp) (c : ClassificationCache),
      c.cache.length ≤ c.max_size →
      (runCacheOps c ops).cache.length ≤ (runCacheOps c ops).max_size ∧
      (runCacheOps c ops).max_size = c.max_size := by
    intro ops
    induction ops with
    | nil => intro c h; exact ⟨h, rfl⟩
    | cons op rest ih =>
      intro c h
      have hstep : runCacheOps c (op :: rest)
          = runCacheOps (applyCacheOp c op) rest := rfl
      rw [hstep]
      obtain ⟨h1, h2⟩ := ih (applyCacheOp c op) (applyCacheOp_size op h)
      exact ⟨h1, h2.trans (applyCacheOp_max c op)⟩
  refine ⟨?_, ?_, ?_, by decide, by decide, by decide⟩
  · intro m ops
    obtain ⟨h1, h2⟩ := hrun ops (ClassificationCache.init m) (Nat.zero_le m)
    rw [h2] at h1
    exact h1
  · intro c k v habs hfull hmax
    unfold ClassificationCache.put
    rw [if_neg (by simp [habs])]
    show (if c.max_size < (c.cache ++ [(k, v)]).length
        then (c.cache ++ [(k, v)]).tail
        else c.cache ++ [(k, v)]) = c.cache.tail ++ [(k, v)]
    rw [if_pos (by simp [hfull])]
    cases hc : c.cache with
    | nil =>
      rw [hc] at hfull
      simp only [List.length_nil] at hfull
      omega
    | cons x xs => simp
  · intro c k p hf
    unfold ClassificationCache.get
    rw [hf]
    exact List.getLast?_concat _

theorem C4_cache_bounded_lru_witness :
    (((ClassificationCache.init 1).put 5 [("v", "X")]).put 6
      [("v", "Y")]).cache
      = (((ClassificationCache.init 1).put 5 [("v", "X")]).cache).tail
        ++ [(6, [("v", "Y")])] :=
  C4_cache_bounded_lru.2.1 ((ClassificationCache.init 1).put 5 [("v", "X")])
    6 [("v", "Y")] (by decide) (by decide) (by decide)

theorem indexOf_append_cons_self {y : String} {pre ys : List String}
    (h : y ∉ pre) : (pre ++ y :: ys).indexOf y = pre.length := by
  induction pre with
  | nil => simp
  | cons p ps ih =>
    have hpy : p ≠ y := fun he => h (he ▸ List.mem_cons_self p ps)
    have hy : y ∉ ps := fun hm => h (List.mem_cons_of_mem p hm)
    rw [List.cons_append, List.indexOf_cons_ne _ hpy]
    rw [ih hy]
    rfl

theorem indexOf_append_left {b : String} {pre suf : List String}
    (h : b ∈ pre) : (pre ++ suf).indexOf b < pre.length := by
  induction pre with
  | nil => exact absurd h (List.not_mem_nil b)
  | cons p ps ih =>
    by_cases hpb : p = b
    · subst hpb
      simp [List.cons_append, List.indexOf_cons_self]
    · rcases List.mem_cons.mp h with he | hm
      · exact absurd he.symm hpb
      · rw [List.cons_append, List.indexOf_cons_ne _ hpb]
        exact Nat.succ_lt_succ (ih hm)

theorem mostCommon_fold (l : List String) :
    ∀ (suf pre : List String) (b : String), l = pre ++ suf → b ∈ pre →
      (∀ w ∈ pre, l.count w ≤ l.count b) →
      (∀ w ∈ pre, l.count w = l.count b → l.indexOf b ≤ l.indexOf w) →
      (suf.foldl (fun b y => if l.count b < l.count y then y else b) b) ∈ l ∧
      (∀ w ∈ l, l.count w ≤
        l.count (suf.foldl
          (fun b y => if l.count b < l.count y then y else b) b)) ∧
      (∀ w ∈ l, l.count w =
          l.count (suf.foldl
            (fun b y => if l.count b < l.count y then y else b) b) →
        l.indexOf (suf.foldl
          (fun b y => if l.count b < l.count y then y else b) b)
          ≤ l.indexOf w) := by
  intro suf
  induction suf with
  | nil =>
    intro pre b hl hb hle htie
    rw [List.foldl_nil]
    have hpre : pre = l := by simpa using hl.symm
    subst hpre
    exact ⟨hb, hle, htie⟩
  | cons y ys ih =>
    intro pre b hl hb hle htie
    rw [List.foldl_cons]
    by_cases hc : l.count b < l.count y
    · rw [if_pos hc]
      refine ih (pre ++ [y]) y (by rw [hl]; simp) (by simp) ?_ ?_
      · intro w hw
        rcases List.mem_append.mp hw with hwp | hwy
        · exact le_of_lt (lt_of_le_of_lt (hle w hwp) hc)
        · have hwy' : w = y := by simpa using hwy
          subst hwy'
          exact le_refl _
      · intro w hw hweq
        rcases List.mem_append.mp hw with hwp | hwy
        · exact absurd hweq (Nat.ne_of_lt (lt_of_le_of_lt (hle w hwp) hc))
        · have hwy' : w = y := by simpa using hwy
          subst hwy'
          exact le_refl _
    · rw [if_neg hc]
      refine ih (pre ++ [y]) b (by rw [hl]; simp)
        (List.mem_append.mpr (Or.inl hb)) ?_ ?_
      · intro w hw
        rcases List.mem_append.mp hw with hwp | hwy
        · exact hle w hwp
        · have hwy' : w = y := by simpa using hwy
          subst hwy'
          exact not_lt.mp hc
      · intro w hw hweq
        rcases List.mem_append.mp hw with hwp | hwy
        · exact htie w hwp hweq
        · have hwy' : w = y := by simpa using hwy
          subst hwy'
          by_cases hyp : w ∈ pre
          · exact htie w hyp hweq
          · have h1 : l.indexOf w = pre.length := by
              rw [hl]
              exact indexOf_append_cons_self hyp
            have h2 : l.indexOf b < pre.length := by
              rw [hl]
              exact indexOf_append_left hb
            omega

/-- The value `most_common(1)` returns occurs in the list, has maximal
multiplicity, and ties are broken by the first value encountered in
window order (minimal first-occurrence index). -/
theorem mostCommon_spec {l : List String} {v : String}
    (h : mostCommon l = some v) :
    v ∈ l ∧ (∀ w ∈ l, l.count w ≤ l.count v) ∧
    (∀ w ∈ l, l.count w = l.count v → l.indexOf v ≤ l.indexOf w) := by
  match l, h with
  | x :: xs, h =>
    have hv : (x :: xs).foldl
        (fun b y => if (x :: xs).count b < (x :: xs).count y then y else b) x
        = v := by
      simpa [mostCommon] using h
    rw [List.foldl_cons, if_neg (lt_irrefl _)] at hv
    subst hv
    exact mostCommon_fold (x :: xs) xs [x] x rfl (List.mem_cons_self x [])
      (by intro w hw; rw [List.eq_of_mem_singleton hw])
      (by intro w hw _; rw [List.eq_of_mem_singleton hw])

theorem mapM_pair_spec (g : String → Option (String × String))
    (hg : ∀ k q, g k = some q → q.1 = k) :
    ∀ (keys : List String) (res : List (String × String)),
      keys.mapM g = some res →
      res.map (fun p => p.1) = keys ∧ ∀ p ∈ res, g p.1 = some p := by
  intro keys
  induction keys with
  | nil =>
    intro res h
    simp only [List.mapM_nil, pure, Option.some.injEq] at h
    subst h
    exact ⟨rfl, by simp⟩
  | cons k ks ih =>
    intro res h
    rw [List.mapM_cons] at h
    cases hgk : g k with
    | none => rw [hgk] at h; simp at h
    | some q =>
      rw [hgk] at h
      cases hrest : ks.mapM g with
      | none => rw [hrest] at h; simp at h
      | some rs =>
        rw [hrest] at h
        obtain ⟨h1, h2⟩ := ih rs hrest
        have hres : res = q :: rs := by simpa using h.symm
        subst hres
        refine ⟨?_, ?_⟩
        · simp only [List.map_cons, h1, hg k q hgk]
        · intro p hp
          rcases List.mem_cons.mp hp with rfl | hmem
          · rw [hg k p hgk]
            exact hgk
          · exact h2 p hmem

theorem vote_spec (preds : List (List (String × String)))
    (res : List (String × String)) (hv : vote preds = some res) :
    res.map (fun p => p.1) = (preds.headD []).map (fun p => p.1) ∧
    ∀ p ∈ res, ∃ values : List String,
      preds.mapM (fun pred => dictGet pred p.1) = some values ∧
      mostCommon values = some p.2 := by
  unfold vote at hv
  have hg : ∀ k q,
      (do
        let values ← preds.mapM (fun pred => dictGet pred k)
        let mc ← mostCommon values
        pure (k, mc)) = some q → q.1 = k := by
    intro k q hq
    cases hm : preds.mapM (fun pred => dictGet pred k) with
    | none => rw [hm] at hq; simp at hq
    | some values =>
      rw [hm] at hq
      simp only [Option.bind_eq_bind, Option.some_bind] at hq
      cases hmc : mostCommon values with
      | none => rw [hmc] at hq; simp at hq
      | some mc =>
        rw [hmc] at hq
        have hqe : q = (k, mc) := by simpa using hq.symm
        rw [hqe]
  obtain ⟨h1, h2⟩ := mapM_pair_spec _ hg _ _ hv
  refine ⟨h1, ?_⟩
  intro p hp
  have hgp := h2 p hp
  cases hm : preds.mapM (fun pred => dictGet pred p.1) with
  | none => rw [hm] at hgp; simp at hgp
  | some values =>
    rw [hm] at hgp
    simp only [Option.bind_eq_bind, Option.some_bind] at hgp
    cases hmc : mostCommon values with
    | none => rw [hmc] at hgp; simp at hgp
    | some mc =>
      rw [hmc] at hgp
      have hpe : (p.1, mc) = p := by simpa using hgp
      refine ⟨values, rfl, ?_⟩
      rw [hmc]
      exact congrArg some (congrArg Prod.snd hpe)

theorem setHistory_find (h : List (Nat × List (List (String × String))))
    (k : Nat) (v : List (List (String × String))) :
    (setHistory h k v).find? (fun p => p.1 = k) = some (k, v) := by
  unfold setHistory
  split
  · rename_i hany
    induction h with
    | nil => simp at hany
    | cons p ps ih =>
      by_cases hp : p.1 = k
      · simp [List.find?_cons, hp]
      · simp only [List.any_cons, Bool.or_eq_true, decide_eq_true_eq]
          at hany
        rcases hany with h1 | h2
        · exact absurd h1 hp
        · simpa [List.find?_cons, hp] using ih h2
  · rename_i hany
    induction h with
    | nil => simp [List.find?_cons]
    | cons p ps ih =>
      have hp : ¬ p.1 = k := by
        intro he
        exact hany (by simp [List.any_cons, he])
      have hps : ¬ (ps.any (fun p => p.1 = k)) = true := by
        intro he
        exact hany (by simp [List.any_cons, he])
      simpa [List.cons_append, List.find?_cons, hp] using ih hps

theorem smooth_eq (sm : TemporalSmoother) (id : Nat)
    (cur : List (String × String)) :
    sm.smooth id cur
      = (if (windowAfter sm id cur).length < 2 then some cur
          else vote (windowAfter sm id cur),
         { sm with history :=
            (setHistory sm.history id (windowAfter sm id cur)) }) := by
  simp only [TemporalSmoother.smooth, windowAfter]
  split <;> (split <;> rfl)

/-- C5: `smooth` appends the current prediction and trims to the window
(oldest first); with fewer than two entries it returns the current
prediction unmodified; otherwise it returns, for every key of the oldest
window entry, the most frequent value of that key across the window, ties
broken by the first value in window order; and the concrete window-5 run
`A, A, B, A, A` smooths to `A`. -/
theorem C5_smoother_majority_vote :
    (∀ (sm : TemporalSmoother) (id : Nat) (cur : List (String × String)),
      ((sm.smooth id cur).2.history.find? (fun p => p.1 = id))
        = some (id, windowAfter sm id cur)) ∧
    (∀ (sm : TemporalSmoother) (id : Nat) (cur : List (String × String)),
      (windowAfter sm id cur).length < 2 → (sm.smooth id cur).1 = some cur) ∧
    (∀ (sm : TemporalSmoother) (id : Nat) (cur : List (String × String)),
      ¬ (windowAfter sm id cur).length < 2 →
      (sm.smooth id cur).1 = vote (windowAfter sm id cur)) ∧
    (∀ (preds : List (List (String × String)))
      (res : List (String × String)), vote preds = some res →
      res.map (fun p => p.1) = (preds.headD []).map (fun p => p.1) ∧
      ∀ p ∈ res, ∃ values : List String,
        preds.mapM (fun pred => dictGet pred p.1) = some values ∧
        p.2 ∈ values ∧
        (∀ w ∈ values, values.count w ≤ values.count p.2) ∧
        (∀ w ∈ values, values.count w = values.count p.2 →
          values.indexOf p.2 ≤ values.indexOf w)) ∧
    ((((((TemporalSmoother.init 5).smooth 1 [("color", "A")]).2.smooth 1
        [("color", "A")]).2.smooth 1 [("color", "B")]).2.smooth 1
        [("color", "A")]).2.smooth 1 [("color", "A")]).1
      = some [("color", "A")] := by
  refine ⟨?_, ?_, ?_, ?_, by decide⟩
  · intro sm id cur
    rw [smooth_eq]
    exact setHistory_find sm.history id (windowAfter sm id cur)
  · intro sm id cur hlt
    rw [smooth_eq]
    show (if (windowAfter sm id cur).length < 2 then some cur
      else vote (windowAfter sm id cur)) = some cur
    rw [if_pos hlt]
  · intro sm id cur hge
    rw [smooth_eq]
    show (if (windowAfter sm id cur).length < 2 then some cur
      else vote (windowAfter sm id cur)) = vote (windowAfter sm id cur)
    rw [if_neg hge]
  · intro preds res hv
    obtain ⟨h1, h2⟩ := vote_spec preds res hv
    refine ⟨h1, ?_⟩
    intro p hp
    obtain ⟨values, hm, hmc⟩ := h2 p hp
    obtain ⟨hmem, hmax, htie⟩ := mostCommon_spec hmc
    exact ⟨values, hm, hmem, hmax, htie⟩

theorem C5_smoother_majority_vote_witness :
    ((TemporalSmoother.init 5).smooth 1 [("color", "A")]).1
      = some [("color", "A")] :=
  C5_smoother_majority_vote.2.1 (TemporalSmoother.init 5) 1
    [("color", "A")] (by decide)

/-- C6: zone membership uses inclusive bounds of the resolved pixel
rectangle, and on a 640×480 frame with the percentage spec
(25, 20, 50, 60) the rectangle resolves to (160, 96, 480, 384) with
(320, 240) inside, (0, 0) outside and the corner (160, 96) inside. -/
theorem C6_trigger_zone_inclusive :
    (∀ (z : TriggerZone) (x y : ℚ),
      z.contains_point x y = true ↔
        (z.x1 : ℚ) ≤ x ∧ x ≤ (z.x2 : ℚ) ∧
        (z.y1 : ℚ) ≤ y ∧ y ≤ (z.y2 : ℚ)) ∧
    ((TriggerZone.init 640 480 (some ⟨25, 20, 50, 60⟩)).x1,
     (TriggerZone.init 640 480 (some ⟨25, 20, 50, 60⟩)).y1,
     (TriggerZone.init 640 480 (some ⟨25, 20, 50, 60⟩)).x2,
     (TriggerZone.init 640 480 (some ⟨25, 20, 50, 60⟩)).y2)
      = (160, 96, 480, 384) ∧
    (TriggerZone.init 640 480
      (some ⟨25, 20, 50, 60⟩)).contains_point 320 240 = true ∧
    (TriggerZone.init 640 480
      (some ⟨25, 20, 50, 60⟩)).contains_point 0 0 = false ∧
    (TriggerZone.init 640 480
      (some ⟨25, 20, 50, 60⟩)).contains_point 160 96 = true := by
  refine ⟨?_, by decide, by decide, by decide, by decide⟩
  intro z x y
  unfold TriggerZone.contains_point
  simp

theorem bestLabel_fold (probaMap : List (String × ℚ)) (cat : List String) :
    ∀ (suf pre : List String) (b : String),
      cat = pre ++ suf → b ∈ pre →
      (∀ w ∈ pre, probaOf probaMap w ≤ probaOf probaMap b) →
      (∀ w ∈ pre, probaOf probaMap w = probaOf probaMap b →
        cat.indexOf b ≤ cat.indexOf w) →
      (suf.foldl
        (fun best label =>
          if best.2 < probaOf probaMap label
            then (label, probaOf probaMap label) else best)
        (b, probaOf probaMap b)).1 ∈ cat ∧
      (suf.foldl
        (fun best label =>
          if best.2 < probaOf probaMap label
            then (label, probaOf probaMap label) else best)
        (b, probaOf probaMap b)).2
        = probaOf probaMap
          (suf.foldl
            (fun best label =>
              if best.2 < probaOf probaMap label
                then (label, probaOf probaMap label) else best)
            (b, probaOf probaMap b)).1 ∧
      (∀ w ∈ cat, probaOf probaMap w ≤
        (suf.foldl
          (fun best label =>
            if best.2 < probaOf probaMap label
              then (label, probaOf probaMap label) else best)
          (b, probaOf probaMap b)).2) ∧
      (∀ w ∈ cat, probaOf probaMap w =
          (suf.foldl
            (fun best label =>
              if best.2 < probaOf probaMap label
                then (label, probaOf probaMap label) else best)
            (b, probaOf probaMap b)).2 →
        cat.indexOf
          (suf.foldl
            (fun best label =>
              if best.2 < probaOf probaMap label
                then (label, probaOf probaMap label) else best)
            (b, probaOf probaMap b)).1 ≤ cat.indexOf w) := by
  intro suf
  induction suf with
  | nil =>
    intro pre b hl hb hle htie
    rw [List.foldl_nil]
    have hpre : pre = cat := by simpa using hl.symm
    subst hpre
    exact ⟨hb, rfl, hle, htie⟩
  | cons y ys ih =>
    intro pre b hl hb hle htie
    rw [List.foldl_cons]
    by_cases hc : probaOf probaMap b < probaOf probaMap y
    · rw [if_pos hc]
      refine ih (pre ++ [y]) y (by rw [hl]; simp) (by simp) ?_ ?_
      · intro w hw
        rcases List.mem_append.mp hw with hwp | hwy
        · exact le_of_lt (lt_of_le_of_lt (hle w hwp) hc)
        · have hwy' : w = y := by simpa using hwy
          subst hwy'
          exact le_refl _
      · intro w hw hweq
        rcases List.mem_append.mp hw with hwp | hwy
        · exact absurd hweq (ne_of_lt (lt_of_le_of_lt (hle w hwp) hc))
        · have hwy' : w = y := by simpa using hwy
          subst hwy'
          exact le_refl _
    · rw [if_neg hc]
      refine ih (pre ++ [y]) b (by rw [hl]; simp)
        (List.mem_append.mpr (Or.inl hb)) ?_ ?_
      · intro w hw
        rcases List.mem_append.mp hw with hwp | hwy
        · exact hle w hwp
        · have hwy' : w = y := by simpa using hwy
          subst hwy'
          exact not_lt.mp hc
      · intro w hw hweq
        rcases List.mem_append.mp hw with hwp | hwy
        · exact htie w hwp hweq
        · have hwy' : w = y := by simpa using hwy
          subst hwy'
          by_cases hyp : w ∈ pre
          · exact htie w hyp hweq
          · have h1 : cat.indexOf w = pre.length := by
              rw [hl]
              exact indexOf_append_cons_self hyp
            have h2 : cat.indexOf b < pre.length := by
              rw [hl]
              exact indexOf_append_left hb
            omega

theorem bestLabelProba_spec (category : List String)
    (probaMap : List (String × ℚ)) (hcat : category ≠ [])
    (hpos : ∀ q ∈ probaMap, 0 ≤ q.2) :
    (bestLabelProba category probaMap).1 ∈ category ∧
    (bestLabelProba category probaMap).2
      = probaOf probaMap (bestLabelProba category probaMap).1 ∧
    (∀ l ∈ category,
      probaOf probaMap l ≤ (bestLabelProba category probaMap).2) ∧
    (∀ l ∈ category,
      probaOf probaMap l = (bestLabelProba category probaMap).2 →
      category.indexOf (bestLabelProba category probaMap).1
        ≤ category.indexOf l) := by
  have hp0 : ∀ l, 0 ≤ probaOf probaMap l := by
    intro l
    unfold probaOf
    cases hf : probaMap.find? (fun q => q.1 = l) with
    | none => simp
    | some q => simpa using hpos q (List.mem_of_find?_eq_some hf)
  match category, hcat with
  | x :: rest, _ =>
    unfold bestLabelProba
    rw [List.foldl_cons,
      if_pos (lt_of_lt_of_le (by norm_num) (hp0 x))]
    exact bestLabel_fold probaMap (x :: rest) rest [x] x rfl
      (List.mem_cons_self x [])
      (by intro w hw; rw [List.eq_of_mem_singleton hw])
      (by intro w hw _; rw [List.eq_of_mem_singleton hw])

/-- C3: label resolution commits the single intersection element when
`|hit| = 1`; with `|hit| = 0` the highest-probability category label with
its percentage when it reaches the threshold and the literal `"UNKNOWN"`
otherwise; with `|hit| > 1` the `"CONFLICT -> ..."` string — where
`best_label`/`best_proba` are the maximal-probability label of the whole
category (first such label on ties).  The three concrete examples of the
spec hold. -/
theorem C3_label_resolution_cases :
    (∀ (category : List String) (probaMap : List (String × ℚ)),
      category ≠ [] → (∀ q ∈ probaMap, 0 ≤ q.2) →
      (bestLabelProba category probaMap).1 ∈ category ∧
      (bestLabelProba category probaMap).2
        = probaOf probaMap (bestLabelProba category probaMap).1 ∧
      (∀ l ∈ category,
        probaOf probaMap l ≤ (bestLabelProba category probaMap).2) ∧
      (∀ l ∈ category,
        probaOf probaMap l = (bestLabelProba category probaMap).2 →
        category.indexOf (bestLabelProba category probaMap).1
          ≤ category.indexOf l)) ∧
    (∀ (predicted category : List String) (probaMap : List (String × ℚ))
      (thr : ℚ) (l : String), hitOf predicted category = [l] →
      resolveAttr predicted category probaMap thr = l) ∧
    (∀ (predicted category : List String) (probaMap : List (String × ℚ))
      (thr : ℚ), hitOf predicted category = [] →
      resolveAttr predicted category probaMap thr
        = if thr ≤ (bestLabelProba category probaMap).2
          then (bestLabelProba category probaMap).1 ++ " ("
            ++ fmtPct (bestLabelProba category probaMap).2 ++ "%)"
          else "UNKNOWN") ∧
    (∀ (predicted category : List String) (probaMap : List (String × ℚ))
      (thr : ℚ), 2 ≤ (hitOf predicted category).length →
      resolveAttr predicted category probaMap thr
        = "CONFLICT -> " ++ (bestLabelProba category probaMap).1 ++ " ("
          ++ fmtPct (bestLabelProba category probaMap).2 ++ "%)") ∧
    resolveAttr ["Aqua"] ["Aqua", "Coke"]
      [("Aqua", 9/10), ("Coke", 1/10)] (1/2) = "Aqua" ∧
    resolveAttr [] ["A", "B"] [("A", 3/10), ("B", 1/10)] (1/2)
      = "UNKNOWN" ∧
    resolveAttr ["A", "B"] ["A", "B"] [("A", 82/100), ("B", 6/10)] (1/2)
      = "CONFLICT -> A (82.0%)" := by
  refine ⟨bestLabelProba_spec, ?_, ?_, ?_, by decide, by decide, by decide⟩
  · intro predicted category probaMap thr l hhit
    unfold resolveAttr
    rw [hhit]
    rfl
  · intro predicted category probaMap thr hhit
    unfold resolveAttr
    rw [hhit]
    rfl
  · intro predicted category probaMap thr hhit
    unfold resolveAttr
    rw [if_neg (by omega), if_neg (by omega)]

theorem C3_label_resolution_witness :
    (bestLabelProba ["A", "B"] [("A", 82/100), ("B", 6/10)]).1
      ∈ ["A", "B"] :=
  (C3_label_resolution_cases.1 ["A", "B"] [("A", 82/100), ("B", 6/10)]
    (by decide) (by decide)).1

/-- C2 counterexample: two tracker instances in one process share the
static `STrack._count`.  Instance A emits identity 1; instance B calls
`reset()` (zeroing the shared counter); A's next update then emits
identity 1 again, so A's emitted sequence `[1, 1]` repeats although A
never called reset. -/
theorem C2_counterexample :
    ((BYTETracker.update (BYTETracker.init (1/2) 30 (8/10))
        [⟨⟨0, 0, 10, 10⟩, 9/10⟩] 0).1.filterMap (fun t => t.track_id) ++
      (BYTETracker.update
        (BYTETracker.update (BYTETracker.init (1/2) 30 (8/10))
          [⟨⟨0, 0, 10, 10⟩, 9/10⟩] 0).2.1
        [⟨⟨100, 100, 110, 110⟩, 9/10⟩]
        (BYTETracker.reset (BYTETracker.init (3/10) 30 (8/10))).2).1.filterMap
        (fun t => t.track_id))
      = [1, 1] := by decide

end Ekovision

